import Mathlib

/-!
The heardbeat program: a CPU-load heartbeat publisher (`main.go`).

A shallow embedding of `main.go` and a verification of its specification.

* Go strings are Lean strings (sequences of Unicode code points, so only valid UTF-8).
* Go `int`, `int64` and `time.Duration` are integers wrapped to 64 bits where the program
  does arithmetic on them; `byte(x)` keeps the low 8 bits.
* `float64` is modelled exactly: a finite value is `(-1)^neg * m * 2^e`, and every
  operation rounds the exact rational result to the nearest value, ties to even.
* The library functions the program calls (`strconv.Atoi`, `strconv.ParseBool`,
  `math.Round`, `json.Marshal`, `godotenv.Load`, `os.Getenv`, `time.Sleep`, the paho token)
  are modelled after their documented behaviour; `math.Pow` follows the algorithm of the Go
  library, whose result is not always the float64 value nearest to the power.
* The outside world (environment, files, clock, broker, CPU sampler) is a record of
  oracles; running the program yields the list of its observable events in program order.
  After `go publishCPULoad(client)` the main goroutine parks in `select {}` and does nothing
  more, so the events of the program are those of `main` followed by those of the loop.
  The three MQTT callbacks only print and are left out.
* Both loops of the program are unbounded; a run is cut after a given number of passes,
  and the theorems hold for every such bound.
-/

set_option maxRecDepth 1000000
set_option exponentiation.threshold 4096

namespace Heardbeat

/-! ## float64 -/

/-- An IEEE-754 binary64 value. The finite value `fin neg m e` is `(-1)^neg * m * 2^e`;
the values produced by the operations below have `m < 2^53` and `-1074 ≤ e ≤ 971`, with
`2^52 ≤ m` unless `e = -1074`. -/
inductive F64 where
  | nan : F64
  | inf (neg : Bool) : F64
  | fin (neg : Bool) (m : Nat) (e : Int) : F64
  deriving DecidableEq, Repr

/-- Floor of the binary logarithm, by repeated halving (`fuel` bounds the number of halvings). -/
def log2Fuel : Nat → Nat → Nat
  | 0, _ => 0
  | fuel + 1, n => if n < 2 then 0 else log2Fuel fuel (n / 2) + 1

/-- Floor of the binary logarithm of a positive natural number. -/
def log2 (n : Nat) : Nat := log2Fuel n n

/-- Floor of the binary logarithm of the positive rational `p / q`. -/
def ilog2 (p q : Nat) : Int :=
  let k : Int := (log2 p : Int) - (log2 q : Int)
  if q * 2 ^ k.toNat ≤ p * 2 ^ (-k).toNat then k else k - 1

/-- Round the rational `p / q` (with `0 < q`) of sign `neg` to the nearest binary64 value,
ties to even; magnitudes of `2^1024` and above overflow to infinity, magnitudes below the
normal range are rounded on the subnormal grid `2^(-1074)`. -/
def roundRat (neg : Bool) (p q : Nat) : F64 :=
  if p = 0 then F64.fin neg 0 (-1074) else
  let e := max (ilog2 p q - 52) (-1074)
  let num := p * 2 ^ (-e).toNat
  let den := q * 2 ^ e.toNat
  let m0 := num / den
  let r := num % den
  let m := if den < 2 * r ∨ (2 * r = den ∧ m0 % 2 = 1) then m0 + 1 else m0
  let m1 := if m = 2 ^ 53 then 2 ^ 52 else m
  let e1 := if m = 2 ^ 53 then e + 1 else e
  if 971 < e1 then F64.inf neg else F64.fin neg m1 e1

/-- Go `x * y` on float64. -/
def fmul : F64 → F64 → F64
  | F64.nan, _ => F64.nan
  | _, F64.nan => F64.nan
  | F64.inf s, F64.inf t => F64.inf (xor s t)
  | F64.inf s, F64.fin t m _ => if m = 0 then F64.nan else F64.inf (xor s t)
  | F64.fin s m _, F64.inf t => if m = 0 then F64.nan else F64.inf (xor s t)
  | F64.fin s m e, F64.fin t n f =>
      roundRat (xor s t) (m * n * 2 ^ (e + f).toNat) (2 ^ (-(e + f)).toNat)

/-- Go `x / y` on float64. -/
def fdiv : F64 → F64 → F64
  | F64.nan, _ => F64.nan
  | _, F64.nan => F64.nan
  | F64.inf _, F64.inf _ => F64.nan
  | F64.inf s, F64.fin t _ _ => F64.inf (xor s t)
  | F64.fin s _ _, F64.inf t => F64.fin (xor s t) 0 (-1074)
  | F64.fin s m e, F64.fin t n f =>
      if n = 0 then (if m = 0 then F64.nan else F64.inf (xor s t))
      else roundRat (xor s t) (m * 2 ^ (e - f).toNat) (n * 2 ^ (f - e).toNat)

/-- The integer `(-1)^neg * m * 2^(e - g)`, for `g ≤ e`: a finite value written on the
grid `2^g`. -/
def scaledInt (neg : Bool) (m : Nat) (e g : Int) : Int :=
  (if neg then -1 else 1) * ((m * 2 ^ (e - g).toNat : Nat) : Int)

/-- Go `x + y` on float64. -/
def fadd : F64 → F64 → F64
  | F64.nan, _ => F64.nan
  | _, F64.nan => F64.nan
  | F64.inf s, F64.inf t => if s = t then F64.inf s else F64.nan
  | F64.inf s, F64.fin _ _ _ => F64.inf s
  | F64.fin _ _ _, F64.inf t => F64.inf t
  | F64.fin s m e, F64.fin t n f =>
      let g := min e f
      let c := scaledInt s m e g + scaledInt t n f g
      roundRat (if c = 0 then s && t else decide (c < 0))
        (c.natAbs * 2 ^ g.toNat) (2 ^ (-g).toNat)

/-- Go `x < y` on float64. -/
def flt : F64 → F64 → Bool
  | F64.nan, _ => false
  | _, F64.nan => false
  | F64.inf s, F64.inf t => s && !t
  | F64.inf s, F64.fin _ _ _ => s
  | F64.fin _ _ _, F64.inf t => !t
  | F64.fin s m e, F64.fin t n f =>
      decide (scaledInt s m e (min e f) < scaledInt t n f (min e f))

/-- Go `math.Round`: the nearest integer, halves away from zero; NaN and the infinities are
returned unchanged. For `m * 2^e` the integer is `⌊m * 2^e + 1/2⌋`, with the sign kept. -/
def mathRound : F64 → F64
  | F64.nan => F64.nan
  | F64.inf s => F64.inf s
  | F64.fin s m e =>
      roundRat s ((2 * (m * 2 ^ e.toNat) + 2 ^ (-e).toNat) / (2 * 2 ^ (-e).toNat)) 1

/-- The float64 value of the decimal literal `p / q`. -/
def lit (p q : Nat) : F64 := roundRat false p q

/-- Go `float64(n)` for an integer `n`. -/
def ofInt (n : Int) : F64 := roundRat (decide (n < 0)) n.natAbs 1

/-- The integer part of the magnitude of a float64: the `yi` of
`yi, yf := Modf(Abs(y))`, which is also `int64(yi)` when it is below `2^63`. -/
def truncAbs : F64 → Nat
  | F64.fin _ m e => m * 2 ^ e.toNat / 2 ^ (-e).toNat
  | _ => 0

/-- Go `math.Frexp`: `x = frac * 2^exp` with `1/2 ≤ |frac| < 1`; zero, NaN and the
infinities are returned with exponent 0. -/
def Frexp : F64 → F64 × Int
  | F64.fin s m e =>
      if m = 0 then (F64.fin s m e, 0)
      else (F64.fin s m (-(log2 m : Int) - 1), e + (log2 m : Int) + 1)
  | x => (x, 0)

/-- Go `math.Ldexp(frac, exp)`: `frac * 2^exp`, rounded to nearest (ties to even) when the
result is subnormal, and infinite when it overflows; zero, NaN and the infinities are
returned unchanged. -/
def Ldexp : F64 → Int → F64
  | F64.fin s m e, k => roundRat s (m * 2 ^ (e + k).toNat) (2 ^ (-(e + k)).toNat)
  | x, _ => x

/-- The loop of Go's `math.Pow` that multiplies the answer `a1 * 2^ae` by `x^yi`, for
`x = x1 * 2^xe` and `i = int64(yi)`:
`for i := int64(yi); i != 0; i >>= 1 { if xe < -1<<12 || 1<<12 < xe { ae += xe; break };
if i&1 == 1 { a1 *= x1; ae += xe }; x1 *= x1; xe <<= 1; if x1 < .5 { x1 += x1; xe-- } }`.
The first argument bounds the number of passes; an `int64` takes at most 63. -/
def powLoop : Nat → Nat → F64 → Int → F64 → Int → F64 × Int
  | 0, _, _, _, a1, ae => (a1, ae)
  | fuel + 1, i, x1, xe, a1, ae =>
    if i = 0 then (a1, ae)
    else if xe < -4096 ∨ 4096 < xe then (a1, ae + xe)
    else
      let a1 := if i % 2 = 1 then fmul a1 x1 else a1
      let ae := if i % 2 = 1 then ae + xe else ae
      let x1 := fmul x1 x1
      let xe := 2 * xe
      if flt x1 (lit 1 2) then powLoop fuel (i / 2) (fadd x1 x1) (xe - 1) a1 ae
      else powLoop fuel (i / 2) x1 xe a1 ae

/-- Go `math.Pow(10, float64(d))` for an `int` `d`, after the function `pow` of the Go
library (`math/pow.go`). Of its special cases only `y == 0` (the result is 1) and `y == 1`
(the result is `x`) apply to `x = 10` and an integer `y`. The exponent has no fractional
part; from `|y| = 2^63` on the result is `+Inf` for a positive and 0 for a negative
exponent. Otherwise `x = 0.625 * 2^4` is raised to the power by repeated squaring of the
fraction, each product rounded, the reciprocal is taken for a negative exponent, and the
binary exponent is applied by `Ldexp`. The result is exactly `10^d` for `0 ≤ d ≤ 22`; it
need not be the float64 value nearest to `10^d` elsewhere. -/
def mathPow10 (d : Int) : F64 :=
  let x := lit 10 1
  let y := ofInt d
  if d = 0 then lit 1 1
  else if d = 1 then x
  else
    let yi := truncAbs y
    if 2 ^ 63 ≤ yi then (if d < 0 then F64.fin false 0 (-1074) else F64.inf false)
    else
      let r := powLoop 64 yi (Frexp x).1 (Frexp x).2 (lit 1 1) 0
      if d < 0 then Ldexp (fdiv (lit 1 1) r.1) (-r.2) else Ldexp r.1 r.2

/-- The function `round` of `main.go`:
`pow := math.Pow(10, float64(decimals)); return math.Round(f*pow) / pow`. -/
def round (f : F64) (decimals : Int) : F64 :=
  let pow := mathPow10 decimals
  fdiv (mathRound (fmul f pow)) pow

/-- The rational value of a finite float64 (`0` for NaN and the infinities). -/
def F64.toRat : F64 → ℚ
  | F64.fin s m e => (if s then -1 else 1) * (m : ℚ) * (2 : ℚ) ^ e
  | _ => 0

/-- What the specification asks of `round` on a non-negative value, before the final
division: `x * 10^d` rounded to an integer, halves going up. -/
def halfUpScaled (x : ℚ) (d : Nat) : Nat := ⌊x * 10 ^ d + 1 / 2⌋₊

/-! ## strconv -/

/-- Value of a string of decimal digits; `none` on any other character. -/
def digitsToNat : List Char → Nat → Option Nat
  | [], acc => some acc
  | c :: cs, acc => if c.isDigit then digitsToNat cs (acc * 10 + (c.toNat - 48)) else none

/-- A non-empty string of decimal digits. -/
def parseUint (ds : List Char) : Option Nat :=
  match ds with
  | [] => none
  | _ :: _ => digitsToNat ds 0

/-- Go `strconv.Atoi` with a 64-bit `int`: an optional sign, then one or more decimal
digits, the value within `[-2^63, 2^63 - 1]`; `none` stands for the returned error. -/
def Atoi (s : String) : Option Int :=
  match s.data with
  | [] => none
  | '-' :: ds => (parseUint ds).bind fun n => if n ≤ 2 ^ 63 then some (-(n : Int)) else none
  | '+' :: ds => (parseUint ds).bind fun n => if n < 2 ^ 63 then some (n : Int) else none
  | ds => (parseUint ds).bind fun n => if n < 2 ^ 63 then some (n : Int) else none

/-- Go `strconv.ParseBool`; `none` stands for the returned error. -/
def ParseBool (s : String) : Option Bool :=
  if s = "1" ∨ s = "t" ∨ s = "T" ∨ s = "true" ∨ s = "TRUE" ∨ s = "True" then some true
  else if s = "0" ∨ s = "f" ∨ s = "F" ∨ s = "false" ∨ s = "FALSE" ∨ s = "False" then some false
  else none

/-- Conversion to a signed 64-bit integer, wrapping around. -/
def wrap64 (x : Int) : Int := (x + 2 ^ 63) % 2 ^ 64 - 2 ^ 63

/-- Go `byte(x)` for an `int`: the low 8 bits. -/
def toByte (x : Int) : Nat := (x % 256).toNat
/-! ## encoding/json

`json.Marshal` of a `Message`: the struct tags give the member names and their order,
strings are quoted and escaped as `encoding/json` does (HTML-safe escaping included), and
the number is written in the shortest decimal form that reads back as the same float64,
in `%e` form below `1e-6` and from `1e21` on. -/

/-- The struct `Message` of `main.go`, with the JSON members `iid`, `key`, `time`, `value`. -/
structure Message where
  IID : String
  Key : String
  Time : String
  Value : F64
  deriving DecidableEq, Repr

/-- The lower-case hexadecimal digit of a value below 16. -/
def hexDigit (n : Nat) : Char :=
  if n < 10 then Char.ofNat (48 + n) else Char.ofNat (87 + n)

/-- The escaping of one character inside a JSON string: the quote and the backslash get
a backslash, the control characters get their short form or a `\u00XX` form, and `<`, `>`,
`&`, U+2028 and U+2029 get a `\uXXXX` form. -/
def escapeChar (c : Char) : List Char :=
  if c = '"' then ['\\', '"']
  else if c = '\\' then ['\\', '\\']
  else if c = '\x08' then ['\\', 'b']
  else if c = '\x0c' then ['\\', 'f']
  else if c = '\n' then ['\\', 'n']
  else if c = '\r' then ['\\', 'r']
  else if c = '\t' then ['\\', 't']
  else if c.toNat < 32 ∨ c = '<' ∨ c = '>' ∨ c = '&' then
    ['\\', 'u', '0', '0', hexDigit (c.toNat / 16), hexDigit (c.toNat % 16)]
  else if c.toNat = 8232 ∨ c.toNat = 8233 then
    ['\\', 'u', '2', '0', '2', hexDigit (c.toNat % 16)]
  else [c]

/-- The escaping of the characters of a string. -/
def escapeChars : List Char → List Char
  | [] => []
  | c :: cs => escapeChar c ++ escapeChars cs

/-- A string as a JSON string: quoted and escaped. -/
def appendString (s : String) : List Char :=
  '"' :: (escapeChars s.data ++ ['"'])

/-- Decimal digits of a natural number, most significant first, in front of `acc`. -/
def natDigitsAux : Nat → Nat → List Char → List Char
  | 0, _, acc => acc
  | fuel + 1, n, acc =>
      if n < 10 then Char.ofNat (48 + n) :: acc
      else natDigitsAux fuel (n / 10) (Char.ofNat (48 + n % 10) :: acc)

/-- Decimal digits of a natural number, most significant first. -/
def natDigits (n : Nat) : List Char := natDigitsAux (n + 1) n []

/-- Decimal position of a positive rational `p / q`: the `dp` with
`10 ^ (dp - 1) ≤ p / q < 10 ^ dp`, searched downwards from `hi`. -/
def decPosFuel : Nat → Int → Nat → Nat → Int
  | 0, hi, _, _ => hi
  | fuel + 1, hi, p, q =>
      if q * 10 ^ (hi - 1).toNat ≤ p * 10 ^ (1 - hi).toNat then hi
      else decPosFuel fuel (hi - 1) p q

/-- Decimal position of a positive rational in the float64 range. -/
def decPos (p q : Nat) : Int := decPosFuel 640 310 p q

/-- The decimal `k * 10 ^ s` without trailing zeros in `k`. -/
def stripZerosFuel : Nat → Nat → Int → Nat × Int
  | 0, k, s => (k, s)
  | fuel + 1, k, s => if k % 10 = 0 ∧ k ≠ 0 then stripZerosFuel fuel (k / 10) (s + 1) else (k, s)

/-- The decimal `k * 10 ^ s` without trailing zeros in `k`. -/
def stripZeros (k : Nat) (s : Int) : Nat × Int := stripZerosFuel k k s

/-- The decimal `k * 10 ^ s` of sign `neg` read as a float64: the nearest value. -/
def decimalToF64 (neg : Bool) (k : Nat) (s : Int) : F64 :=
  roundRat neg (k * 10 ^ s.toNat) (10 ^ (-s).toNat)

/-- Search for the shortest decimal that reads back as `m * 2^e`: with `n` significant
digits, the decimal just below and the decimal just above the value are tried, the nearer
one preferred; else one more digit is taken. -/
def shortestFuel : Nat → Nat → Bool → Nat → Int → Int → Option (Nat × Int)
  | 0, _, _, _, _, _ => none
  | fuel + 1, n, neg, m, e, dp =>
      let p := m * 2 ^ e.toNat
      let q := 2 ^ (-e).toNat
      let s : Int := dp - n
      let lo := (p * 10 ^ (-s).toNat) / (q * 10 ^ s.toNat)
      let r := (p * 10 ^ (-s).toNat) % (q * 10 ^ s.toNat)
      let cl := stripZeros lo s
      let ch := stripZeros (lo + 1) s
      let okLo := decide (decimalToF64 neg cl.1 cl.2 = F64.fin neg m e)
      let okHi := decide (decimalToF64 neg ch.1 ch.2 = F64.fin neg m e)
      if okLo ∧ okHi then
        (if 2 * r < q * 10 ^ s.toNat ∨ (2 * r = q * 10 ^ s.toNat ∧ lo % 2 = 0) then some cl
         else some ch)
      else if okLo then some cl
      else if okHi then some ch
      else shortestFuel fuel (n + 1) neg m e dp

/-- The exact decimal expansion of `m * 2^e`. -/
def exactDecimal (m : Nat) (e : Int) : Nat × Int :=
  if 0 ≤ e then stripZeros (m * 2 ^ e.toNat) 0 else stripZeros (m * 5 ^ (-e).toNat) e

/-- The shortest decimal `k * 10 ^ s` that reads back as `m * 2^e` (`strconv.FormatFloat`
with precision -1); 17 digits always suffice for a float64, the exact expansion stands
behind the search. -/
def shortestDecimal (neg : Bool) (m : Nat) (e : Int) : Nat × Int :=
  match shortestFuel 17 1 neg m e (decPos (m * 2 ^ e.toNat) (2 ^ (-e).toNat)) with
  | some ks => ks
  | none => exactDecimal m e

/-- A run of `n` zero digits. -/
def zeros (n : Nat) : List Char := List.replicate n '0'

/-- The digits `ds` with the decimal point after the first `dp` of them, in `%f` form. -/
def fmtF (ds : List Char) (dp : Int) : List Char :=
  let ip := if 0 < dp then ds.take dp.toNat ++ zeros (dp.toNat - ds.length) else ['0']
  let fr := if dp < (ds.length : Int) then '.' :: (zeros (-dp).toNat ++ ds.drop dp.toNat) else []
  ip ++ fr

/-- The digits `ds` with the decimal point after the first `dp` of them, in `%e` form with
the exponent as `encoding/json` leaves it (no leading zero). -/
def fmtE (ds : List Char) (dp : Int) : List Char :=
  let x := dp - 1
  ds.take 1 ++ (if 1 < ds.length then '.' :: ds.drop 1 else []) ++
    ('e' :: (if x < 0 then '-' else '+') :: natDigits x.natAbs)

/-- The comparison `m * 2^e < p / q`. -/
def ltRat (m : Nat) (e : Int) (p q : Nat) : Bool :=
  decide (m * 2 ^ e.toNat * q < p * 2 ^ (-e).toNat)

/-- The float encoder of `encoding/json`: an error for NaN and the infinities, else the
shortest decimal, in `%e` form when the magnitude is below the float64 `1e-6`
(`4722366482869645 * 2^(-72)`) or at least `1e21`, in `%f` form otherwise. -/
def formatFloat : F64 → Option (List Char)
  | F64.nan => none
  | F64.inf _ => none
  | F64.fin neg m e =>
      let sign := if neg then ['-'] else []
      if m = 0 then some (sign ++ ['0'])
      else
        let ks := shortestDecimal neg m e
        let ds := natDigits ks.1
        let dp : Int := ks.2 + ds.length
        if ltRat m e 4722366482869645 (2 ^ 72) ∨ ¬ ltRat m e (10 ^ 21) 1
        then some (sign ++ fmtE ds dp) else some (sign ++ fmtF ds dp)

/-- Go `json.Marshal(message)`: the object of the four members in the order of the struct
fields; `none` stands for the returned error. -/
def jsonMarshal (msg : Message) : Option String :=
  match formatFloat msg.Value with
  | none => none
  | some num =>
      some (String.mk (
        "\x7b\"iid\":".data ++ appendString msg.IID ++
        ",\"key\":".data ++ appendString msg.Key ++
        ",\"time\":".data ++ appendString msg.Time ++
        ",\"value\":".data ++ num ++ [Char.ofNat 125]))

/-! ## Decoding the payload

The program only encodes. To state what decoding a payload gives, a reader of compact
JSON objects whose members are strings and numbers is defined here, after the JSON
grammar: string escapes are undone and a number is read as the nearest float64. -/

/-- A well-formed binary64 value: NaN, an infinity, or `m * 2^e` with `m < 2^53`,
`-1074 ≤ e ≤ 971` and `2^52 ≤ m` unless `e = -1074`. -/
def F64.wf : F64 → Prop
  | F64.fin _ m e => m < 2 ^ 53 ∧ -1074 ≤ e ∧ e ≤ 971 ∧ (2 ^ 52 ≤ m ∨ e = -1074)
  | _ => True

/-- The places where the program calls `log.Fatal` or `log.Fatalln`. -/
inductive FatalSite where
  | dotenvLoad
  | portParse
  | skipVerifyParse
  | caRead
  | valueRoundParse
  | qosParse
  | retainParse
  | heartbeatParse
  deriving DecidableEq, Repr

/-- The client options built by `main`. -/
structure ClientOptions where
  broker : String
  insecureSkipVerify : Bool
  clientID : String
  username : String
  password : String
  deriving DecidableEq, Repr

/-- Observable events of a run, in program order:
* `fatal site`: `log.Fatal` or `log.Fatalln` at `site`, which ends the process;
* `printConnectTo`: the line `Connect to protocol://broker:port`;
* `readCA ok`: `ioutil.ReadFile("ca_3.pem")` in `NewTlsConfig`, and whether it succeeded;
* `newClient opts`: `mqtt.NewClient(opts)`;
* `connect`: `client.Connect()` and the wait for its token;
* `panic err`: `panic(token.Error())`, which ends the process;
* `printConnected`: the line `Connected to MQTT broker`;
* `spawnPublishLoop`: `go publishCPULoad(client)`;
* `logCpuError`, `logMarshalError`, `logNotConnected`, `logPublishError`: the four
  `log.Println` lines of the loop;
* `checkConnected b`: the answer of `client.IsConnected()` at the guard of the loop;
* `publish topic qos retain payload`: `client.Publish(...)` and the wait for its token;
* `printPublished`: the line `Published CPU load: ...`;
* `sleep d`: `time.Sleep(d)`, the duration in nanoseconds. -/
inductive Event where
  | fatal (site : FatalSite)
  | printConnectTo (protocol broker : String) (port : Int)
  | readCA (ok : Bool)
  | newClient (opts : ClientOptions)
  | connect
  | panic (err : String)
  | printConnected
  | spawnPublishLoop
  | logCpuError (err : String)
  | logMarshalError
  | checkConnected (connected : Bool)
  | logNotConnected
  | publish (topic : String) (qos : Nat) (retain : Bool) (payload : String)
  | logPublishError (err : String)
  | printPublished (value : F64) (time protocol broker portStr : String)
  | sleep (nanoseconds : Int)
  deriving DecidableEq, Repr

/-- How a bounded run ends: the process has exited through `log.Fatal`, it has panicked,
the bound of the connect loop was reached (`connecting`), the bound of the publish loop
was reached with the loop still running (`publishing`), or the publish loop has returned
and the process stays alive with `main` parked in `select {}` (`idle`). -/
inductive Outcome where
  | exited (site : FatalSite)
  | panicked (err : String)
  | connecting
  | publishing
  | idle
  deriving DecidableEq, Repr

/-- What the world answers during one pass of the publish loop: the pass's start time
(formatted with a layout), the CPU sample, the two `IsConnected` answers, the error of the
publish token, and `time.Since(start_time).Milliseconds()`. -/
structure IterInput where
  now : String → String
  cpu : Except String F64
  connectedAtGuard : Bool
  publishError : Option String
  connectedAfterPublish : Bool
  elapsedMs : Int

/-- The world of one process: the parsed `.env` file (`none` when `godotenv.Load` returns
an error), the process environment, whether `ca_3.pem` can be read, the clock at client
creation, the error of the k-th connect attempt and the inputs of the i-th loop pass. -/
structure World where
  dotenv : Option (String → Option String)
  procEnv : String → Option String
  caReadable : Bool
  startTime : String → String
  connectError : Nat → Option String
  iter : Nat → IterInput

/-- Go `os.Getenv` after `godotenv.Load`: a variable of the process environment wins, a
variable only in `.env` has been added by the load, an unset variable reads as empty. -/
def World.Getenv (w : World) (k : String) : String :=
  match w.procEnv k with
  | some v => v
  | none =>
    match w.dotenv with
    | some f => (f k).getD ""
    | none => ""

/-- The paho `Token.Wait`: blocks until the operation is complete and then returns true. -/
def tokenWait : Bool := true

/-! ## `publishCPULoad` -/

/-- The variables the publish loop reads: the globals `topic` and `protocol` set by `main`
and the locals of `publishCPULoad`. -/
structure LoopVars where
  topic : String
  protocol : String
  broker : String
  portStr : String
  mqtt_iid : String
  mqtt_key : String
  mqtt_time_format : String
  mqtt_value_round : Int
  mqtt_qos : Nat
  mqtt_retain : Bool
  interval : Int

/-- How one pass of the loop body ends: with the next pass (fall through or `continue`)
or with `return`. -/
inductive Flow where
  | next
  | ret
  deriving DecidableEq, Repr

/-- The pacing step at the end of a pass:
`remainingTime := interval - elapsed_time; if remainingTime > 0 { time.Sleep(...) }`. -/
def pacing (interval elapsed_time : Int) : List Event :=
  let remainingTime := wrap64 (interval - elapsed_time)
  if 0 < remainingTime then [Event.sleep (wrap64 (remainingTime * 1000000))] else []

/-- The report after `token := client.Publish(...)`: the error is logged when
`token.Wait() && token.Error() != nil && !client.IsConnected()`, else the success line is
printed. -/
def publishReport (v : LoopVars) (inp : IterInput) (cpuLoad : F64) : Event :=
  match tokenWait, inp.publishError, inp.connectedAfterPublish with
  | true, some err, false => Event.logPublishError err
  | _, _, _ =>
    Event.printPublished cpuLoad (inp.now "2006-01-02 15:04:05.999 -0700")
      v.protocol v.broker v.portStr

/-- The function `getCPULoad` of `main.go`: the first value `cpu.Percent` returns for a
one-second window, or its error; the world gives the answer. -/
def getCPULoad (inp : IterInput) : Except String F64 := inp.cpu

/-- One pass of the `for` loop of `publishCPULoad`. -/
def loopBody (v : LoopVars) (inp : IterInput) : List Event × Flow :=
  match getCPULoad inp with
  | Except.error err => ([Event.logCpuError err], Flow.next)
  | Except.ok load =>
    let cpuLoad := round load v.mqtt_value_round
    let message : Message := ⟨v.mqtt_iid, v.mqtt_key, inp.now v.mqtt_time_format, cpuLoad⟩
    match jsonMarshal message with
    | none => ([Event.logMarshalError], Flow.next)
    | some jsonMessage =>
      if !inp.connectedAtGuard then
        ([Event.checkConnected false, Event.logNotConnected], Flow.ret)
      else
        (Event.checkConnected true ::
          Event.publish (v.topic ++ "/" ++ v.mqtt_iid ++ "/" ++ v.mqtt_key)
            v.mqtt_qos v.mqtt_retain jsonMessage ::
          publishReport v inp cpuLoad :: pacing v.interval inp.elapsedMs, Flow.next)

/-- The `for` loop of `publishCPULoad`, cut after `fuel` passes; `i` is the number of the
next pass. -/
def publishLoop (v : LoopVars) (iter : Nat → IterInput) : Nat → Nat → List Event × Outcome
  | 0, _ => ([], Outcome.publishing)
  | fuel + 1, i =>
    match loopBody v (iter i) with
    | (evs, Flow.ret) => (evs, Outcome.idle)
    | (evs, Flow.next) =>
      let r := publishLoop v iter fuel (i + 1)
      (evs ++ r.1, r.2)

/-- The function `publishCPULoad` of `main.go`, the loop cut after `fuel` passes. The
globals `topic` and `protocol` are passed in. -/
def publishCPULoad (topic protocol : String) (w : World) (fuel : Nat) : List Event × Outcome :=
  let broker := w.Getenv "MQTT_BROKER"
  let portStr := w.Getenv "MQTT_PORT"
  let mqtt_iid := w.Getenv "MQTT_IID"
  let mqtt_key := w.Getenv "MQTT_KEY"
  let mqtt_time_format := w.Getenv "MQTT_TIME_FORMAT"
  match Atoi (w.Getenv "MQTT_VALUE_ROUND") with
  | none => ([Event.fatal FatalSite.valueRoundParse], Outcome.exited FatalSite.valueRoundParse)
  | some mqtt_value_round =>
  match Atoi (w.Getenv "MQTT_QOS") with
  | none => ([Event.fatal FatalSite.qosParse], Outcome.exited FatalSite.qosParse)
  | some mqtt_qosint =>
  let mqtt_qos := toByte mqtt_qosint
  match ParseBool (w.Getenv "MQTT_RETAIN") with
  | none => ([Event.fatal FatalSite.retainParse], Outcome.exited FatalSite.retainParse)
  | some mqtt_retain =>
  match Atoi (w.Getenv "HEARTBEAT_INTERVAL") with
  | none => ([Event.fatal FatalSite.heartbeatParse], Outcome.exited FatalSite.heartbeatParse)
  | some mqtt_heardbeat_interval =>
  let interval := wrap64 mqtt_heardbeat_interval
  publishLoop
    ⟨topic, protocol, broker, portStr, mqtt_iid, mqtt_key, mqtt_time_format,
      mqtt_value_round, mqtt_qos, mqtt_retain, interval⟩
    w.iter fuel 0

/-! ## `main` -/

/-- The function `NewTlsConfig` of `main.go`: reads `ca_3.pem`; `none` when the read fails
and the process exits through `log.Fatalln`. -/
def NewTlsConfig (w : World) : List Event × Option Unit :=
  if w.caReadable then ([Event.readCA true], some ())
  else ([Event.readCA false, Event.fatal FatalSite.caRead], none)

/-- One pass of the connect loop of `main`, as the k-th attempt. The result is the
outcome of the run when the pass ends it: `panic` aborts the process (the `time.Sleep`
after it is never reached), and `select {}` never returns (the `break` after it is never
reached). `none` would be a pass that goes on to the next pass. -/
def connectPass (topic protocol : String) (opts : ClientOptions) (w : World) (fuel k : Nat) :
    List Event × Option Outcome :=
  match tokenWait, w.connectError k with
  | true, some err =>
    ([Event.newClient opts, Event.connect, Event.panic err], some (Outcome.panicked err))
  | _, _ =>
    let r := publishCPULoad topic protocol w fuel
    ([Event.newClient opts, Event.connect, Event.printConnected, Event.spawnPublishLoop] ++ r.1,
      some r.2)

/-- The connect loop `for { ... }` of `main`, cut after `attempts` passes; `k` is the
number of the next pass. -/
def connectLoop (topic protocol : String) (opts : ClientOptions) (w : World) (fuel : Nat) :
    Nat → Nat → List Event × Outcome
  | 0, _ => ([], Outcome.connecting)
  | attempts + 1, k =>
    match connectPass topic protocol opts w fuel k with
    | (evs, some o) => (evs, o)
    | (evs, none) =>
      let r := connectLoop topic protocol opts w fuel attempts (k + 1)
      (evs ++ r.1, r.2)

/-- The function `main` of `main.go`. The connect loop is cut after `attempts` passes and
the publish loop after `fuel` passes. -/
def main (w : World) (attempts fuel : Nat) : List Event × Outcome :=
  match w.dotenv with
  | none => ([Event.fatal FatalSite.dotenvLoad], Outcome.exited FatalSite.dotenvLoad)
  | some _ =>
  let broker := w.Getenv "MQTT_BROKER"
  let portStr := w.Getenv "MQTT_PORT"
  match Atoi portStr with
  | none => ([Event.fatal FatalSite.portParse], Outcome.exited FatalSite.portParse)
  | some port =>
  match ParseBool (w.Getenv "MQTT_TLS_INSECURE_SKIP_VERIFY") with
  | none => ([Event.fatal FatalSite.skipVerifyParse], Outcome.exited FatalSite.skipVerifyParse)
  | some insecureSkipVerify =>
  let protocol := w.Getenv "MQTT_PROTOCOL"
  let MQTT_CLIENT_ID := w.Getenv "MQTT_CLIENT_ID"
  let mqtt_usr := w.Getenv "MQTT_USERNAME"
  let mqtt_pass := w.Getenv "MQTT_PASSWORD"
  let topic := w.Getenv "MQTT_TOPIC"
  let mqtt_time_format := w.Getenv "MQTT_TIME_FORMAT"
  let hello := Event.printConnectTo protocol broker port
  match NewTlsConfig w with
  | (evs, none) => (hello :: evs, Outcome.exited FatalSite.caRead)
  | (evs, some _) =>
  let opts : ClientOptions :=
    ⟨protocol ++ "://" ++ broker ++ ":" ++ toString port, insecureSkipVerify,
      MQTT_CLIENT_ID ++ w.startTime mqtt_time_format, mqtt_usr, mqtt_pass⟩
  let r := connectLoop topic protocol opts w fuel attempts 0
  (hello :: evs ++ r.1, r.2)

/-- The trace of a bounded run. -/
def trace (w : World) (attempts fuel : Nat) : List Event := (main w attempts fuel).1

/-- The outcome of a bounded run. -/
def outcome (w : World) (attempts fuel : Nat) : Outcome := (main w attempts fuel).2

/-! ## Vocabulary of the theorems -/

/-- Startup gets as far as the connect loop: `.env` loads, `MQTT_PORT` and
`MQTT_TLS_INSECURE_SKIP_VERIFY` parse, and `ca_3.pem` can be read. -/
def startupOk (w : World) : Bool :=
  w.dotenv.isSome && (Atoi (w.Getenv "MQTT_PORT")).isSome &&
    (ParseBool (w.Getenv "MQTT_TLS_INSECURE_SKIP_VERIFY")).isSome && w.caReadable

/-- The process environment itself holds all six numeric and boolean values in
well-formed form. -/
def envWellFormed (env : String → Option String) : Bool :=
  ((env "MQTT_PORT").bind Atoi).isSome &&
  ((env "MQTT_TLS_INSECURE_SKIP_VERIFY").bind ParseBool).isSome &&
  ((env "MQTT_VALUE_ROUND").bind Atoi).isSome &&
  ((env "MQTT_QOS").bind Atoi).isSome &&
  ((env "MQTT_RETAIN").bind ParseBool).isSome &&
  ((env "HEARTBEAT_INTERVAL").bind Atoi).isSome

/-- The client options `main` builds from the environment. -/
def clientOptions (w : World) (port : Int) (skip : Bool) : ClientOptions :=
  ⟨w.Getenv "MQTT_PROTOCOL" ++ "://" ++ w.Getenv "MQTT_BROKER" ++ ":" ++ toString port, skip,
    w.Getenv "MQTT_CLIENT_ID" ++ w.startTime (w.Getenv "MQTT_TIME_FORMAT"),
    w.Getenv "MQTT_USERNAME", w.Getenv "MQTT_PASSWORD"⟩

/-- The loop variables `publishCPULoad` reads from the environment and the globals. -/
def loopVars (w : World) (vr q : Int) (rt : Bool) (hb : Int) : LoopVars :=
  ⟨w.Getenv "MQTT_TOPIC", w.Getenv "MQTT_PROTOCOL", w.Getenv "MQTT_BROKER", w.Getenv "MQTT_PORT",
    w.Getenv "MQTT_IID", w.Getenv "MQTT_KEY", w.Getenv "MQTT_TIME_FORMAT",
    vr, toByte q, rt, wrap64 hb⟩

/-- The events of a successful startup up to the connect call. -/
def connectPrefix (w : World) (port : Int) (skip : Bool) : List Event :=
  [Event.printConnectTo (w.Getenv "MQTT_PROTOCOL") (w.Getenv "MQTT_BROKER") port,
    Event.readCA true, Event.newClient (clientOptions w port skip), Event.connect]

/-- The events of `main` before the publish loop starts, and the fatal exits. -/
def startupEvent : Event → Prop
  | Event.fatal _ => True
  | Event.printConnectTo _ _ _ => True
  | Event.readCA _ => True
  | Event.newClient _ => True
  | Event.connect => True
  | Event.panic _ => True
  | Event.printConnected => True
  | Event.spawnPublishLoop => True
  | _ => False

/-- What an event of the publish loop looks like for the loop variables `v`: a publish
call carries the topic, QoS and retain flag of `v`; events of `main` do not occur. -/
def loopEvent (v : LoopVars) : Event → Prop
  | Event.publish t q r _ =>
      t = v.topic ++ "/" ++ v.mqtt_iid ++ "/" ++ v.mqtt_key ∧ q = v.mqtt_qos ∧ r = v.mqtt_retain
  | Event.logCpuError _ => True
  | Event.logMarshalError => True
  | Event.checkConnected _ => True
  | Event.logNotConnected => True
  | Event.logPublishError _ => True
  | Event.printPublished _ _ _ _ _ => True
  | Event.sleep _ => True
  | _ => False

/-- No call of `client.Publish` among the events. -/
def noPublish (evs : List Event) : Prop := ∀ t q r p, Event.publish t q r p ∉ evs

/-- No MQTT client is created and no connect call is made among the events. -/
def noConnect (evs : List Event) : Prop := Event.connect ∉ evs ∧ ∀ opts, Event.newClient opts ∉ evs

/-- The float64 value `math.Pow(10, d)` is exactly `10^d` (checked on the integers
`m * 2^e = 10^d`, cleared of the negative power of two). -/
def pow10Exact (d : Nat) : Bool :=
  match mathPow10 d with
  | F64.fin false m e => decide (m * 2 ^ e.toNat = 10 ^ d * 2 ^ (-e).toNat)
  | _ => false

/-! ## Sample worlds -/

/-- A complete, well-formed environment. -/
def sampleEnv (k : String) : Option String :=
  if k = "MQTT_BROKER" then some "broker.local"
  else if k = "MQTT_PORT" then some "8883"
  else if k = "MQTT_PROTOCOL" then some "ssl"
  else if k = "MQTT_TLS_INSECURE_SKIP_VERIFY" then some "false"
  else if k = "MQTT_CLIENT_ID" then some "hb-"
  else if k = "MQTT_USERNAME" then some "user"
  else if k = "MQTT_PASSWORD" then some "secret"
  else if k = "MQTT_TOPIC" then some "home"
  else if k = "MQTT_TIME_FORMAT" then some "2006-01-02T15:04:05Z07:00"
  else if k = "MQTT_IID" then some "sensor-1"
  else if k = "MQTT_KEY" then some "cpu"
  else if k = "MQTT_VALUE_ROUND" then some "1"
  else if k = "MQTT_QOS" then some "1"
  else if k = "MQTT_RETAIN" then some "false"
  else if k = "HEARTBEAT_INTERVAL" then some "5000"
  else none

/-- A pass that samples 42.49 percent, publishes without error and takes 1010 ms; the
client is connected at the guard when `connected` is true. -/
def samplePass (connected : Bool) : IterInput :=
  ⟨fun _ => "2024-01-01T00:00:00Z", Except.ok (lit 4249 100), connected, none, true, 1010⟩

/-- A world where everything works; the broker connection is lost before the third pass. -/
def sampleWorld : World :=
  ⟨some fun _ => none, sampleEnv, true, fun _ => "2024-01-01T00:00:00Z", fun _ => none,
    fun i => samplePass (decide (i < 2))⟩

/-- The world `w` with the environment variable `k` set to `v`. -/
def World.setenv (w : World) (k v : String) : World :=
  { w with procEnv := fun x => if x = k then some v else w.procEnv x }

/-- The world `w` with the environment variable `k` unset (also in `.env`). -/
def World.unsetenv (w : World) (k : String) : World :=
  { w with
    procEnv := fun x => if x = k then none else w.procEnv x
    dotenv := w.dotenv.map fun f x => if x = k then none else f x }

/-- The payload the sample world publishes. -/
def samplePayload : String :=
  "\x7b\"iid\":\"sensor-1\",\"key\":\"cpu\",\"time\":\"2024-01-01T00:00:00Z\",\"value\":42.5\x7d"

/-- The sample world without a loadable `.env` file. -/
def noDotenvWorld : World := { sampleWorld with dotenv := none }

/-- The sample world with a malformed `MQTT_QOS`. -/
def badQosWorld : World := sampleWorld.setenv "MQTT_QOS" "abc"

/-- The sample world with a malformed `MQTT_PORT`. -/
def badPortWorld : World := sampleWorld.setenv "MQTT_PORT" "88x3"

/-- The sample world without a readable CA file. -/
def noCaWorld : World := { sampleWorld with caReadable := false }

/-- The sample world with a broker that refuses the first connection. -/
def refusedWorld : World :=
  { sampleWorld with connectError := fun k => if k = 0 then some "refused" else none }

theorem pacing_cases (H C : Int) :
    pacing H C = [] ∨ pacing H C = [Event.sleep (wrap64 (wrap64 (H - C) * 1000000))] := by
  unfold pacing
  by_cases h : 0 < wrap64 (H - C) <;> simp [h]

theorem publishReport_cases (v : LoopVars) (inp : IterInput) (x : F64) :
    (∃ err, publishReport v inp x = Event.logPublishError err) ∨
    publishReport v inp x = Event.printPublished x (inp.now "2006-01-02 15:04:05.999 -0700")
      v.protocol v.broker v.portStr := by
  unfold publishReport
  split
  · exact Or.inl ⟨_, rfl⟩
  · exact Or.inr rfl

/-- The four ways one pass of the loop can go. -/
theorem loopBody_cases (v : LoopVars) (inp : IterInput) :
    (∃ err, loopBody v inp = ([Event.logCpuError err], Flow.next)) ∨
    loopBody v inp = ([Event.logMarshalError], Flow.next) ∨
    (inp.connectedAtGuard = false ∧
      loopBody v inp = ([Event.checkConnected false, Event.logNotConnected], Flow.ret)) ∨
    (∃ load js, inp.cpu = Except.ok load ∧ inp.connectedAtGuard = true ∧
      jsonMarshal ⟨v.mqtt_iid, v.mqtt_key, inp.now v.mqtt_time_format,
        round load v.mqtt_value_round⟩ = some js ∧
      loopBody v inp =
        (Event.checkConnected true ::
          Event.publish (v.topic ++ "/" ++ v.mqtt_iid ++ "/" ++ v.mqtt_key)
            v.mqtt_qos v.mqtt_retain js ::
          publishReport v inp (round load v.mqtt_value_round) ::
          pacing v.interval inp.elapsedMs, Flow.next)) := by
  cases hc : inp.cpu with
  | error err => exact Or.inl ⟨err, by simp [loopBody, getCPULoad, hc]⟩
  | ok load =>
    cases hj : jsonMarshal ⟨v.mqtt_iid, v.mqtt_key, inp.now v.mqtt_time_format,
        round load v.mqtt_value_round⟩ with
    | none => exact Or.inr (Or.inl (by simp [loopBody, getCPULoad, hc, hj]))
    | some js =>
      cases hg : inp.connectedAtGuard with
      | false => exact Or.inr (Or.inr (Or.inl ⟨rfl, by simp [loopBody, getCPULoad, hc, hj, hg]⟩))
      | true =>
        exact Or.inr (Or.inr (Or.inr ⟨load, js, rfl, rfl, hj, by simp [loopBody, getCPULoad, hc, hj, hg]⟩))

theorem pacing_loopEvent (v : LoopVars) (H C : Int) : ∀ e ∈ pacing H C, loopEvent v e := by
  intro e he
  rcases pacing_cases H C with h | h <;> rw [h] at he <;> simp at he
  subst he; trivial

theorem loopBody_loopEvent (v : LoopVars) (inp : IterInput) :
    ∀ e ∈ (loopBody v inp).1, loopEvent v e := by
  intro e he
  rcases loopBody_cases v inp with ⟨err, h⟩ | h | ⟨_, h⟩ | ⟨load, js, _, _, _, h⟩ <;>
    rw [h] at he
  · simp at he; subst he; trivial
  · simp at he; subst he; trivial
  · simp at he; rcases he with rfl | rfl <;> trivial
  · simp only [List.mem_cons] at he
    rcases he with rfl | rfl | he | he
    · trivial
    · exact ⟨rfl, rfl, rfl⟩
    · subst he
      rcases publishReport_cases v inp (round load v.mqtt_value_round) with ⟨err, h'⟩ | h' <;>
        rw [h'] <;> trivial
    · exact pacing_loopEvent v _ _ e he

theorem publishLoop_succ (v : LoopVars) (iter : Nat → IterInput) (fuel i : Nat) :
    publishLoop v iter (fuel + 1) i =
      (if (loopBody v (iter i)).2 = Flow.ret then ((loopBody v (iter i)).1, Outcome.idle)
       else ((loopBody v (iter i)).1 ++ (publishLoop v iter fuel (i + 1)).1,
             (publishLoop v iter fuel (i + 1)).2)) := by
  rw [publishLoop]
  rcases h : loopBody v (iter i) with ⟨evs, fl⟩
  cases fl <;> simp

theorem publishLoop_loopEvent (v : LoopVars) (iter : Nat → IterInput) :
    ∀ fuel i, ∀ e ∈ (publishLoop v iter fuel i).1, loopEvent v e := by
  intro fuel
  induction fuel with
  | zero => intro i e he; simp [publishLoop] at he
  | succ n ih =>
    intro i e he
    rw [publishLoop_succ] at he
    split at he
    · exact loopBody_loopEvent v (iter i) e he
    · simp only [List.mem_append] at he
      rcases he with he | he
      · exact loopBody_loopEvent v (iter i) e he
      · exact ih _ e he

/-- The five ways `publishCPULoad` can go: one of the four parses fails, or the loop runs. -/
theorem publishCPULoad_cases (topic protocol : String) (w : World) (fuel : Nat) :
    (Atoi (w.Getenv "MQTT_VALUE_ROUND") = none ∧ publishCPULoad topic protocol w fuel =
      ([Event.fatal FatalSite.valueRoundParse], Outcome.exited FatalSite.valueRoundParse)) ∨
    (Atoi (w.Getenv "MQTT_QOS") = none ∧ publishCPULoad topic protocol w fuel =
      ([Event.fatal FatalSite.qosParse], Outcome.exited FatalSite.qosParse)) ∨
    (ParseBool (w.Getenv "MQTT_RETAIN") = none ∧ publishCPULoad topic protocol w fuel =
      ([Event.fatal FatalSite.retainParse], Outcome.exited FatalSite.retainParse)) ∨
    (Atoi (w.Getenv "HEARTBEAT_INTERVAL") = none ∧ publishCPULoad topic protocol w fuel =
      ([Event.fatal FatalSite.heartbeatParse], Outcome.exited FatalSite.heartbeatParse)) ∨
    (∃ vr q rt hb, Atoi (w.Getenv "MQTT_VALUE_ROUND") = some vr ∧
      Atoi (w.Getenv "MQTT_QOS") = some q ∧ ParseBool (w.Getenv "MQTT_RETAIN") = some rt ∧
      Atoi (w.Getenv "HEARTBEAT_INTERVAL") = some hb ∧
      publishCPULoad topic protocol w fuel =
        publishLoop ⟨topic, protocol, w.Getenv "MQTT_BROKER", w.Getenv "MQTT_PORT",
          w.Getenv "MQTT_IID", w.Getenv "MQTT_KEY", w.Getenv "MQTT_TIME_FORMAT",
          vr, toByte q, rt, wrap64 hb⟩ w.iter fuel 0) := by
  cases h1 : Atoi (w.Getenv "MQTT_VALUE_ROUND") with
  | none => exact Or.inl ⟨rfl, by simp [publishCPULoad, h1]⟩
  | some vr =>
    cases h2 : Atoi (w.Getenv "MQTT_QOS") with
    | none => exact Or.inr (Or.inl ⟨rfl, by simp [publishCPULoad, h1, h2]⟩)
    | some q =>
      cases h3 : ParseBool (w.Getenv "MQTT_RETAIN") with
      | none => exact Or.inr (Or.inr (Or.inl ⟨rfl, by simp [publishCPULoad, h1, h2, h3]⟩))
      | some rt =>
        cases h4 : Atoi (w.Getenv "HEARTBEAT_INTERVAL") with
        | none =>
          exact Or.inr (Or.inr (Or.inr (Or.inl ⟨rfl, by simp [publishCPULoad, h1, h2, h3, h4]⟩)))
        | some hb =>
          exact Or.inr (Or.inr (Or.inr (Or.inr
            ⟨vr, q, rt, hb, rfl, rfl, rfl, rfl, by simp [publishCPULoad, h1, h2, h3, h4]⟩)))

/-- A pass of the connect loop always ends the run. -/
theorem connectPass_cases (topic protocol : String) (opts : ClientOptions) (w : World)
    (fuel k : Nat) :
    (∃ err, w.connectError k = some err ∧ connectPass topic protocol opts w fuel k =
      ([Event.newClient opts, Event.connect, Event.panic err], some (Outcome.panicked err))) ∨
    (w.connectError k = none ∧ connectPass topic protocol opts w fuel k =
      ([Event.newClient opts, Event.connect, Event.printConnected, Event.spawnPublishLoop] ++
        (publishCPULoad topic protocol w fuel).1, some (publishCPULoad topic protocol w fuel).2)) := by
  cases h : w.connectError k with
  | none => exact Or.inr ⟨rfl, by simp [connectPass, h]⟩
  | some err => exact Or.inl ⟨err, rfl, by simp [connectPass, h, tokenWait]⟩

/-- The connect loop with at least one pass allowed is its first pass. -/
theorem connectLoop_succ (topic protocol : String) (opts : ClientOptions) (w : World)
    (fuel attempts k : Nat) :
    (∃ err, w.connectError k = some err ∧
      connectLoop topic protocol opts w fuel (attempts + 1) k =
        ([Event.newClient opts, Event.connect, Event.panic err], Outcome.panicked err)) ∨
    (w.connectError k = none ∧ connectLoop topic protocol opts w fuel (attempts + 1) k =
      ([Event.newClient opts, Event.connect, Event.printConnected, Event.spawnPublishLoop] ++
        (publishCPULoad topic protocol w fuel).1, (publishCPULoad topic protocol w fuel).2)) := by
  rcases connectPass_cases topic protocol opts w fuel k with ⟨err, h, hp⟩ | ⟨h, hp⟩
  · exact Or.inl ⟨err, h, by rw [connectLoop, hp]⟩
  · exact Or.inr ⟨h, by rw [connectLoop, hp]⟩

/-- The client options `main` builds. -/
theorem main_cases (w : World) (attempts fuel : Nat) :
    (w.dotenv = none ∧ main w attempts fuel =
      ([Event.fatal FatalSite.dotenvLoad], Outcome.exited FatalSite.dotenvLoad)) ∨
    (w.dotenv ≠ none ∧ Atoi (w.Getenv "MQTT_PORT") = none ∧ main w attempts fuel =
      ([Event.fatal FatalSite.portParse], Outcome.exited FatalSite.portParse)) ∨
    (w.dotenv ≠ none ∧ Atoi (w.Getenv "MQTT_PORT") ≠ none ∧
      ParseBool (w.Getenv "MQTT_TLS_INSECURE_SKIP_VERIFY") = none ∧ main w attempts fuel =
      ([Event.fatal FatalSite.skipVerifyParse], Outcome.exited FatalSite.skipVerifyParse)) ∨
    (∃ port, w.dotenv ≠ none ∧ Atoi (w.Getenv "MQTT_PORT") = some port ∧
      ParseBool (w.Getenv "MQTT_TLS_INSECURE_SKIP_VERIFY") ≠ none ∧ w.caReadable = false ∧
      main w attempts fuel =
      ([Event.printConnectTo (w.Getenv "MQTT_PROTOCOL") (w.Getenv "MQTT_BROKER") port,
        Event.readCA false, Event.fatal FatalSite.caRead], Outcome.exited FatalSite.caRead)) ∨
    (∃ port opts, w.dotenv ≠ none ∧ Atoi (w.Getenv "MQTT_PORT") = some port ∧
      ParseBool (w.Getenv "MQTT_TLS_INSECURE_SKIP_VERIFY") ≠ none ∧ w.caReadable = true ∧
      main w attempts fuel =
      (Event.printConnectTo (w.Getenv "MQTT_PROTOCOL") (w.Getenv "MQTT_BROKER") port ::
        Event.readCA true ::
        (connectLoop (w.Getenv "MQTT_TOPIC") (w.Getenv "MQTT_PROTOCOL") opts w fuel attempts 0).1,
       (connectLoop (w.Getenv "MQTT_TOPIC") (w.Getenv "MQTT_PROTOCOL") opts w fuel attempts 0).2)) := by
  cases h0 : w.dotenv with
  | none => exact Or.inl ⟨rfl, by simp [main, h0]⟩
  | some f =>
    cases h1 : Atoi (w.Getenv "MQTT_PORT") with
    | none => exact Or.inr (Or.inl ⟨by simp, rfl, by simp [main, h0, h1]⟩)
    | some port =>
      cases h2 : ParseBool (w.Getenv "MQTT_TLS_INSECURE_SKIP_VERIFY") with
      | none => exact Or.inr (Or.inr (Or.inl ⟨by simp, by simp, rfl, by simp [main, h0, h1, h2]⟩))
      | some skip =>
        cases h3 : w.caReadable with
        | false =>
          exact Or.inr (Or.inr (Or.inr (Or.inl
            ⟨port, by simp, rfl, by simp, rfl, by simp [main, h0, h1, h2, NewTlsConfig, h3]⟩)))
        | true =>
          exact Or.inr (Or.inr (Or.inr (Or.inr
            ⟨port, _, by simp, rfl, by simp, rfl, by simp [main, h0, h1, h2, NewTlsConfig, h3]; exact ⟨rfl, rfl⟩⟩)))

theorem publishCPULoad_mem (topic protocol : String) (w : World) (fuel : Nat) (e : Event)
    (he : e ∈ (publishCPULoad topic protocol w fuel).1) :
    startupEvent e ∨
    ∃ vr q rt hb, Atoi (w.Getenv "MQTT_VALUE_ROUND") = some vr ∧
      Atoi (w.Getenv "MQTT_QOS") = some q ∧ ParseBool (w.Getenv "MQTT_RETAIN") = some rt ∧
      Atoi (w.Getenv "HEARTBEAT_INTERVAL") = some hb ∧
      loopEvent ⟨topic, protocol, w.Getenv "MQTT_BROKER", w.Getenv "MQTT_PORT",
          w.Getenv "MQTT_IID", w.Getenv "MQTT_KEY", w.Getenv "MQTT_TIME_FORMAT",
          vr, toByte q, rt, wrap64 hb⟩ e := by
  rcases publishCPULoad_cases topic protocol w fuel with
    ⟨_, h⟩ | ⟨_, h⟩ | ⟨_, h⟩ | ⟨_, h⟩ | ⟨vr, q, rt, hb, h1, h2, h3, h4, h⟩ <;> rw [h] at he
  · simp at he; subst he; exact Or.inl trivial
  · simp at he; subst he; exact Or.inl trivial
  · simp at he; subst he; exact Or.inl trivial
  · simp at he; subst he; exact Or.inl trivial
  · exact Or.inr ⟨vr, q, rt, hb, h1, h2, h3, h4, publishLoop_loopEvent _ _ _ _ e he⟩

theorem connectLoop_mem (topic protocol : String) (opts : ClientOptions) (w : World)
    (fuel attempts k : Nat) (e : Event)
    (he : e ∈ (connectLoop topic protocol opts w fuel attempts k).1) :
    startupEvent e ∨ e ∈ (publishCPULoad topic protocol w fuel).1 := by
  cases attempts with
  | zero => simp [connectLoop] at he
  | succ n =>
    rcases connectLoop_succ topic protocol opts w fuel n k with ⟨err, _, h⟩ | ⟨_, h⟩ <;>
      rw [h] at he
    · simp at he
      rcases he with rfl | rfl | rfl <;> exact Or.inl trivial
    · simp only [List.mem_append, List.mem_cons, List.mem_singleton] at he
      rcases he with (rfl | rfl | rfl | rfl | he) | he
      · exact Or.inl trivial
      · exact Or.inl trivial
      · exact Or.inl trivial
      · exact Or.inl trivial
      · simp at he
      · exact Or.inr he

/-- Every event of a run is a startup event or an event of the publish loop run with the
variables read from the environment. -/
theorem main_mem (w : World) (attempts fuel : Nat) (e : Event)
    (he : e ∈ (main w attempts fuel).1) :
    startupEvent e ∨
    ∃ vr q rt hb, Atoi (w.Getenv "MQTT_VALUE_ROUND") = some vr ∧
      Atoi (w.Getenv "MQTT_QOS") = some q ∧ ParseBool (w.Getenv "MQTT_RETAIN") = some rt ∧
      Atoi (w.Getenv "HEARTBEAT_INTERVAL") = some hb ∧
      loopEvent ⟨w.Getenv "MQTT_TOPIC", w.Getenv "MQTT_PROTOCOL", w.Getenv "MQTT_BROKER",
          w.Getenv "MQTT_PORT", w.Getenv "MQTT_IID", w.Getenv "MQTT_KEY",
          w.Getenv "MQTT_TIME_FORMAT", vr, toByte q, rt, wrap64 hb⟩ e := by
  rcases main_cases w attempts fuel with
    ⟨_, h⟩ | ⟨_, _, h⟩ | ⟨_, _, _, h⟩ | ⟨port, _, _, _, _, h⟩ | ⟨port, opts, _, _, _, _, h⟩ <;>
    rw [h] at he
  · simp at he; subst he; exact Or.inl trivial
  · simp at he; subst he; exact Or.inl trivial
  · simp at he; subst he; exact Or.inl trivial
  · simp at he
    rcases he with rfl | rfl | rfl <;> exact Or.inl trivial
  · simp only [List.mem_cons] at he
    rcases he with rfl | rfl | he
    · exact Or.inl trivial
    · exact Or.inl trivial
    · rcases connectLoop_mem _ _ _ _ _ _ _ e he with h' | h'
      · exact Or.inl h'
      · exact publishCPULoad_mem _ _ _ _ e h'

/-- C1. For every base topic, instance id and metric key read from the environment (any
strings, empty ones included), every publish call of a run uses the topic
`base + "/" + iid + "/" + key` exactly. -/
theorem publish_topic_exact (w : World) (attempts fuel : Nat) (base iid key : String)
    (hb : w.Getenv "MQTT_TOPIC" = base) (hi : w.Getenv "MQTT_IID" = iid)
    (hk : w.Getenv "MQTT_KEY" = key) (t : String) (q : Nat) (r : Bool) (p : String)
    (h : Event.publish t q r p ∈ trace w attempts fuel) :
    t = base ++ "/" ++ iid ++ "/" ++ key := by
  rcases main_mem w attempts fuel _ h with h' | ⟨vr, q', rt, hbt, _, _, _, _, h'⟩
  · exact absurd h' (by simp [startupEvent])
  · subst hb hi hk
    exact h'.1

/-- Witness of C1: the sample world publishes to `home/sensor-1/cpu`, and a world with the
three values unset publishes to `//`. -/
theorem publish_topic_exact_witness :
    Event.publish "home/sensor-1/cpu" 1 false samplePayload ∈ trace sampleWorld 1 1 ∧
    "home/sensor-1/cpu" = "home" ++ "/" ++ "sensor-1" ++ "/" ++ "cpu" ∧
    Event.publish "//" 1 false
        "\x7b\"iid\":\"\",\"key\":\"\",\"time\":\"2024-01-01T00:00:00Z\",\"value\":42.5\x7d"
      ∈ trace (((sampleWorld.unsetenv "MQTT_TOPIC").unsetenv "MQTT_IID").unsetenv "MQTT_KEY") 1 1 :=
  ⟨by decide,
   publish_topic_exact sampleWorld 1 1 "home" "sensor-1" "cpu" (by decide) (by decide)
     (by decide) "home/sensor-1/cpu" 1 false samplePayload (by decide),
   by decide⟩

/-! ## C10: the QoS byte -/

theorem publishLoop_outcome (v : LoopVars) (iter : Nat → IterInput) :
    ∀ fuel i, (publishLoop v iter fuel i).2 = Outcome.publishing ∨
      (publishLoop v iter fuel i).2 = Outcome.idle := by
  intro fuel
  induction fuel with
  | zero => intro i; exact Or.inl rfl
  | succ n ih =>
    intro i
    rw [publishLoop_succ]
    split
    · exact Or.inr rfl
    · exact ih _

/-- When startup succeeds, the run is the greeting, the CA read and the connect loop. -/
theorem main_of_startupOk (w : World) (attempts fuel : Nat) (h : startupOk w = true) :
    ∃ port opts, main w attempts fuel =
      (Event.printConnectTo (w.Getenv "MQTT_PROTOCOL") (w.Getenv "MQTT_BROKER") port ::
        Event.readCA true ::
        (connectLoop (w.Getenv "MQTT_TOPIC") (w.Getenv "MQTT_PROTOCOL") opts w fuel attempts 0).1,
       (connectLoop (w.Getenv "MQTT_TOPIC") (w.Getenv "MQTT_PROTOCOL") opts w fuel attempts 0).2) := by
  simp only [startupOk, Bool.and_eq_true, Option.isSome_iff_exists] at h
  obtain ⟨⟨⟨⟨f, h0⟩, ⟨port, h1⟩⟩, ⟨sk, h2⟩⟩, h3⟩ := h
  rcases main_cases w attempts fuel with
    ⟨h0', _⟩ | ⟨_, h1', _⟩ | ⟨_, _, h2', _⟩ | ⟨_, _, _, _, h3', _⟩ | ⟨port', opts, _, _, _, _, h⟩
  · rw [h0] at h0'; simp at h0'
  · rw [h1] at h1'; simp at h1'
  · rw [h2] at h2'; simp at h2'
  · rw [h3] at h3'; simp at h3'
  · exact ⟨port', opts, h⟩

/-- When startup fails, the run ends in a fatal exit before any client is created. -/
theorem main_of_not_startupOk (w : World) (attempts fuel : Nat) (h : startupOk w = false) :
    ∃ site pre, main w attempts fuel = (pre ++ [Event.fatal site], Outcome.exited site) ∧
      noConnect (pre ++ [Event.fatal site]) ∧ noPublish (pre ++ [Event.fatal site]) ∧
      (site = FatalSite.dotenvLoad ∨ site = FatalSite.portParse ∨
        site = FatalSite.skipVerifyParse ∨ site = FatalSite.caRead) := by
  rcases main_cases w attempts fuel with
    ⟨_, h'⟩ | ⟨_, _, h'⟩ | ⟨_, _, _, h'⟩ | ⟨port, _, _, _, _, h'⟩ | ⟨port', opts, h0, h1, h2, h3, _⟩
  · exact ⟨_, [], h', by simp [noConnect], by simp [noPublish], by simp⟩
  · exact ⟨_, [], h', by simp [noConnect], by simp [noPublish], by simp⟩
  · exact ⟨_, [], h', by simp [noConnect], by simp [noPublish], by simp⟩
  · exact ⟨_, [_, _], h', by simp [noConnect], by simp [noPublish], by simp⟩
  · exfalso
    have : startupOk w = true := by
      simp only [startupOk, Bool.and_eq_true, Option.isSome_iff_ne_none]
      exact ⟨⟨⟨h0, by rw [h1]; simp⟩, h2⟩, h3⟩
    rw [h] at this
    exact Bool.false_ne_true this

theorem publishCPULoad_outcome (topic protocol : String) (w : World) (fuel : Nat) :
    (Atoi (w.Getenv "MQTT_VALUE_ROUND") = none ∧
      (publishCPULoad topic protocol w fuel).2 = Outcome.exited FatalSite.valueRoundParse) ∨
    (Atoi (w.Getenv "MQTT_QOS") = none ∧
      (publishCPULoad topic protocol w fuel).2 = Outcome.exited FatalSite.qosParse) ∨
    (ParseBool (w.Getenv "MQTT_RETAIN") = none ∧
      (publishCPULoad topic protocol w fuel).2 = Outcome.exited FatalSite.retainParse) ∨
    (Atoi (w.Getenv "HEARTBEAT_INTERVAL") = none ∧
      (publishCPULoad topic protocol w fuel).2 = Outcome.exited FatalSite.heartbeatParse) ∨
    (publishCPULoad topic protocol w fuel).2 = Outcome.publishing ∨
    (publishCPULoad topic protocol w fuel).2 = Outcome.idle := by
  rcases publishCPULoad_cases topic protocol w fuel with
    ⟨h1, h⟩ | ⟨h1, h⟩ | ⟨h1, h⟩ | ⟨h1, h⟩ | ⟨vr, q, rt, hb, _, _, _, _, h⟩ <;> rw [h]
  · exact Or.inl ⟨h1, rfl⟩
  · exact Or.inr (Or.inl ⟨h1, rfl⟩)
  · exact Or.inr (Or.inr (Or.inl ⟨h1, rfl⟩))
  · exact Or.inr (Or.inr (Or.inr (Or.inl ⟨h1, rfl⟩)))
  · exact Or.inr (Or.inr (Or.inr (Or.inr (publishLoop_outcome _ _ _ _))))

/-- A run never exits at the QoS parse when `MQTT_QOS` parses. -/
theorem outcome_qosParse (w : World) (attempts fuel : Nat)
    (h : outcome w attempts fuel = Outcome.exited FatalSite.qosParse) :
    Atoi (w.Getenv "MQTT_QOS") = none := by
  unfold outcome at h
  rcases main_cases w attempts fuel with
    ⟨_, h'⟩ | ⟨_, _, h'⟩ | ⟨_, _, _, h'⟩ | ⟨port, _, _, _, _, h'⟩ | ⟨port', opts, _, _, _, _, h'⟩ <;>
    rw [h'] at h
  · simp at h
  · simp at h
  · simp at h
  · simp at h
  · cases attempts with
    | zero => simp [connectLoop] at h
    | succ n =>
      rcases connectLoop_succ (w.Getenv "MQTT_TOPIC") (w.Getenv "MQTT_PROTOCOL") opts w fuel n 0
        with ⟨err, _, hc⟩ | ⟨_, hc⟩ <;> rw [hc] at h
      · simp at h
      · rcases publishCPULoad_outcome (w.Getenv "MQTT_TOPIC") (w.Getenv "MQTT_PROTOCOL") w fuel
          with ⟨_, ho⟩ | ⟨hq, _⟩ | ⟨_, ho⟩ | ⟨_, ho⟩ | ho | ho
        · simp [ho] at h
        · exact hq
        · simp [ho] at h
        · simp [ho] at h
        · simp [ho] at h
        · simp [ho] at h

/-- C10. When `MQTT_QOS` parses as the integer `q`, every publish call of a run is made
at QoS `q mod 256`; this is `q` exactly when `0 ≤ q ≤ 255`; the run never exits at the QoS
parse, whatever `q` is; with `MQTT_QOS=256` the sample world publishes at QoS 0 and with
`MQTT_QOS=3` at QoS 3. -/
theorem publish_qos_low_byte (w : World) (attempts fuel : Nat) (q : Int)
    (hq : Atoi (w.Getenv "MQTT_QOS") = some q) :
    (∀ t b r p, Event.publish t b r p ∈ trace w attempts fuel → (b : Int) = q % 256) ∧
    (q % 256 = q ↔ 0 ≤ q ∧ q ≤ 255) ∧
    outcome w attempts fuel ≠ Outcome.exited FatalSite.qosParse ∧
    Event.publish "home/sensor-1/cpu" 0 false samplePayload
      ∈ trace (sampleWorld.setenv "MQTT_QOS" "256") 1 1 ∧
    Event.publish "home/sensor-1/cpu" 3 false samplePayload
      ∈ trace (sampleWorld.setenv "MQTT_QOS" "3") 1 1 := by
  refine ⟨?_, ?_, ?_, by decide, by decide⟩
  · intro t b r p h
    rcases main_mem w attempts fuel _ h with h' | ⟨vr, q', rt, hbt, _, hq', _, _, h'⟩
    · exact absurd h' (by simp [startupEvent])
    · rw [hq] at hq'
      cases hq'
      rw [h'.2.1]
      show ((toByte q : Nat) : Int) = q % 256
      unfold toByte
      omega
  · omega
  · intro h
    have := outcome_qosParse w attempts fuel h
    rw [hq] at this
    simp at this

/-- Witness of C10: `MQTT_QOS=256` in the sample world, where the pass publishes at QoS 0. -/
theorem publish_qos_low_byte_witness :
    Atoi ((sampleWorld.setenv "MQTT_QOS" "256").Getenv "MQTT_QOS") = some 256 ∧
    Event.publish "home/sensor-1/cpu" 0 false samplePayload
      ∈ trace (sampleWorld.setenv "MQTT_QOS" "256") 1 1 ∧
    (((0 : Nat) : Int) = 256 % 256) :=
  ⟨by decide, by decide,
   (publish_qos_low_byte (sampleWorld.setenv "MQTT_QOS" "256") 1 1 256 (by decide)).1
     "home/sensor-1/cpu" 0 false samplePayload (by decide)⟩

/-! ## C8: the connection guard -/

/-- A run is either a list of startup events with an outcome that does not depend on the
bound of the publish loop, or a list of startup events followed by the publish loop. -/
theorem main_shape (w : World) (attempts : Nat) :
    (∃ pre o, (∀ e ∈ pre, startupEvent e) ∧ o ≠ Outcome.idle ∧ o ≠ Outcome.publishing ∧
      ∀ fuel, main w attempts fuel = (pre, o)) ∨
    (∃ port skip vr q rt hb, startupOk w = true ∧ w.connectError 0 = none ∧ 0 < attempts ∧
      Atoi (w.Getenv "MQTT_PORT") = some port ∧
      ParseBool (w.Getenv "MQTT_TLS_INSECURE_SKIP_VERIFY") = some skip ∧
      Atoi (w.Getenv "MQTT_VALUE_ROUND") = some vr ∧
      Atoi (w.Getenv "MQTT_QOS") = some q ∧ ParseBool (w.Getenv "MQTT_RETAIN") = some rt ∧
      Atoi (w.Getenv "HEARTBEAT_INTERVAL") = some hb ∧
      ∀ fuel, main w attempts fuel =
        (connectPrefix w port skip ++ [Event.printConnected, Event.spawnPublishLoop] ++
          (publishLoop (loopVars w vr q rt hb) w.iter fuel 0).1,
         (publishLoop (loopVars w vr q rt hb) w.iter fuel 0).2)) := by
  cases h0 : w.dotenv with
  | none =>
    refine Or.inl ⟨[Event.fatal FatalSite.dotenvLoad], Outcome.exited FatalSite.dotenvLoad,
      ?_, ?_, ?_, ?_⟩
    · simp [startupEvent]
    · simp
    · simp
    · intro fuel; simp [main, h0]
  | some f =>
  cases h1 : Atoi (w.Getenv "MQTT_PORT") with
  | none =>
    refine Or.inl ⟨[Event.fatal FatalSite.portParse], Outcome.exited FatalSite.portParse,
      ?_, ?_, ?_, ?_⟩
    · simp [startupEvent]
    · simp
    · simp
    · intro fuel; simp [main, h0, h1]
  | some port =>
  cases h2 : ParseBool (w.Getenv "MQTT_TLS_INSECURE_SKIP_VERIFY") with
  | none =>
    refine Or.inl ⟨[Event.fatal FatalSite.skipVerifyParse],
      Outcome.exited FatalSite.skipVerifyParse, ?_, ?_, ?_, ?_⟩
    · simp [startupEvent]
    · simp
    · simp
    · intro fuel; simp [main, h0, h1, h2]
  | some skip =>
  cases h3 : w.caReadable with
  | false =>
    refine Or.inl ⟨[Event.printConnectTo (w.Getenv "MQTT_PROTOCOL") (w.Getenv "MQTT_BROKER") port,
      Event.readCA false, Event.fatal FatalSite.caRead], Outcome.exited FatalSite.caRead,
      ?_, ?_, ?_, ?_⟩
    · simp [startupEvent]
    · simp
    · simp
    · intro fuel; simp [main, h0, h1, h2, NewTlsConfig, h3]
  | true =>
  cases attempts with
  | zero =>
    refine Or.inl ⟨[Event.printConnectTo (w.Getenv "MQTT_PROTOCOL") (w.Getenv "MQTT_BROKER") port,
      Event.readCA true], Outcome.connecting, ?_, ?_, ?_, ?_⟩
    · simp [startupEvent]
    · simp
    · simp
    · intro fuel; simp [main, h0, h1, h2, NewTlsConfig, h3, connectLoop]
  | succ n =>
  have hmain : ∀ fuel, main w (n + 1) fuel =
      (connectPrefix w port skip ++
        (match w.connectError 0 with
          | some err => [Event.panic err]
          | none => [Event.printConnected, Event.spawnPublishLoop] ++
              (publishCPULoad (w.Getenv "MQTT_TOPIC") (w.Getenv "MQTT_PROTOCOL") w fuel).1),
       (match w.connectError 0 with
          | some err => Outcome.panicked err
          | none => (publishCPULoad (w.Getenv "MQTT_TOPIC") (w.Getenv "MQTT_PROTOCOL") w fuel).2)) := by
    intro fuel
    cases hc : w.connectError 0 <;>
      simp [main, h0, h1, h2, NewTlsConfig, h3, connectLoop, connectPass, hc, tokenWait,
        connectPrefix, clientOptions]
  cases hc : w.connectError 0 with
  | some err =>
    refine Or.inl ⟨connectPrefix w port skip ++ [Event.panic err], Outcome.panicked err,
      ?_, ?_, ?_, ?_⟩
    · simp [startupEvent, connectPrefix]
    · simp
    · simp
    · intro fuel; rw [hmain, hc]
  | none =>
  simp only [hc] at hmain
  have hfatal : ∀ site, (∀ fuel,
      publishCPULoad (w.Getenv "MQTT_TOPIC") (w.Getenv "MQTT_PROTOCOL") w fuel =
        ([Event.fatal site], Outcome.exited site)) →
      ∃ pre o, (∀ e ∈ pre, startupEvent e) ∧ o ≠ Outcome.idle ∧ o ≠ Outcome.publishing ∧
        ∀ fuel, main w (n + 1) fuel = (pre, o) := by
    intro site hp
    refine ⟨connectPrefix w port skip ++
      [Event.printConnected, Event.spawnPublishLoop, Event.fatal site], Outcome.exited site,
      ?_, ?_, ?_, ?_⟩
    · simp [startupEvent, connectPrefix]
    · simp
    · simp
    · intro fuel; rw [hmain, hp]; simp
  cases p1 : Atoi (w.Getenv "MQTT_VALUE_ROUND") with
  | none => exact Or.inl (hfatal FatalSite.valueRoundParse fun fuel => by simp [publishCPULoad, p1])
  | some vr =>
  cases p2 : Atoi (w.Getenv "MQTT_QOS") with
  | none => exact Or.inl (hfatal FatalSite.qosParse fun fuel => by simp [publishCPULoad, p1, p2])
  | some q =>
  cases p3 : ParseBool (w.Getenv "MQTT_RETAIN") with
  | none => exact Or.inl (hfatal FatalSite.retainParse fun fuel => by simp [publishCPULoad, p1, p2, p3])
  | some rt =>
  cases p4 : Atoi (w.Getenv "HEARTBEAT_INTERVAL") with
  | none =>
    exact Or.inl (hfatal FatalSite.heartbeatParse fun fuel => by
      simp [publishCPULoad, p1, p2, p3, p4])
  | some hb =>
    refine Or.inr ⟨port, skip, vr, q, rt, hb, ?_, rfl, Nat.succ_pos _, rfl, rfl, rfl, rfl, rfl,
      rfl, ?_⟩
    · simp [startupOk, h0, h1, h2, h3]
    · intro fuel
      rw [hmain]
      simp [publishCPULoad, p1, p2, p3, p4, loopVars]

theorem loopBody_ret (v : LoopVars) (inp : IterInput) (h : (loopBody v inp).2 = Flow.ret) :
    (loopBody v inp).1 = [Event.checkConnected false, Event.logNotConnected] := by
  rcases loopBody_cases v inp with ⟨err, h'⟩ | h' | ⟨_, h'⟩ | ⟨load, js, _, _, _, h'⟩ <;>
    rw [h'] at h ⊢ <;> simp at h ⊢

theorem loopBody_next (v : LoopVars) (inp : IterInput) (h : ¬ (loopBody v inp).2 = Flow.ret) :
    Event.checkConnected false ∉ (loopBody v inp).1 := by
  intro hm
  have hl := loopBody_loopEvent v inp
  rcases loopBody_cases v inp with ⟨err, h'⟩ | h' | ⟨_, h'⟩ | ⟨load, js, _, _, _, h'⟩ <;>
    rw [h'] at h hm
  · simp at hm
  · simp at hm
  · simp at h
  · simp only [List.mem_cons] at hm
    rcases hm with hm | hm | hm | hm
    · simp at hm
    · simp at hm
    · rcases publishReport_cases v inp (round load v.mqtt_value_round) with ⟨err, hr⟩ | hr <;>
        rw [hr] at hm <;> simp at hm
    · rcases pacing_cases v.interval inp.elapsedMs with hp | hp <;> rw [hp] at hm <;> simp at hm

/-- An element that is not in the first part of a concatenation sits in the second. -/
theorem split_after {α : Type} (evs rest pre post : List α) (x : α) (hx : x ∉ evs)
    (h : evs ++ rest = pre ++ x :: post) : ∃ mid, pre = evs ++ mid ∧ rest = mid ++ x :: post := by
  rcases List.append_eq_append_iff.mp h with ⟨a, ha, hb⟩ | ⟨c, hc, hd⟩
  · exact ⟨a, ha, hb⟩
  · cases c with
    | nil => exact ⟨[], by simpa using hc.symm, by simpa using hd.symm⟩
    | cons y ys =>
      simp at hd
      exfalso
      apply hx
      rw [hc, hd.1]
      simp

/-- In the publish loop, a failed connection guard is followed by the log line and
nothing else, and the loop has returned. -/
theorem publishLoop_guard (v : LoopVars) (iter : Nat → IterInput) :
    ∀ fuel i pre post, (publishLoop v iter fuel i).1 = pre ++ Event.checkConnected false :: post →
      post = [Event.logNotConnected] ∧ (publishLoop v iter fuel i).2 = Outcome.idle := by
  intro fuel
  induction fuel with
  | zero => intro i pre post h; simp [publishLoop] at h
  | succ n ih =>
    intro i pre post h
    rw [publishLoop_succ] at h ⊢
    by_cases hr : (loopBody v (iter i)).2 = Flow.ret
    · simp only [hr, if_true] at h ⊢
      rw [loopBody_ret v _ hr] at h
      cases pre with
      | nil => simp at h; exact ⟨h.symm, trivial⟩
      | cons a pre' =>
        cases pre' with
        | nil => simp at h
        | cons b pre'' => simp at h
    · simp only [hr, if_false] at h ⊢
      obtain ⟨mid, _, hrest⟩ := split_after _ _ _ _ _ (loopBody_next v _ hr) h
      exact ih _ _ _ hrest

/-- Once the publish loop has returned, a larger bound changes nothing. -/
theorem publishLoop_idle_stable (v : LoopVars) (iter : Nat → IterInput) :
    ∀ fuel i, (publishLoop v iter fuel i).2 = Outcome.idle →
      ∀ k, publishLoop v iter (fuel + k) i = publishLoop v iter fuel i := by
  intro fuel
  induction fuel with
  | zero => intro i h; simp [publishLoop] at h
  | succ n ih =>
    intro i h k
    have hk : n + 1 + k = (n + k) + 1 := by omega
    rw [hk, publishLoop_succ, publishLoop_succ]
    rw [publishLoop_succ] at h
    by_cases hr : (loopBody v (iter i)).2 = Flow.ret
    · simp [hr]
    · simp only [hr, if_false] at h ⊢
      rw [ih _ h k]

/-- In the publish loop, a failed connection guard belongs to a pass that consists of the
guard and the log line only; the events before it are those of the complete passes that
came before. -/
theorem publishLoop_guard_pass (v : LoopVars) (iter : Nat → IterInput) :
    ∀ fuel i pre post, (publishLoop v iter fuel i).1 = pre ++ Event.checkConnected false :: post →
      ∃ n, n < fuel ∧ pre = (publishLoop v iter n i).1 ∧
        (publishLoop v iter n i).2 = Outcome.publishing ∧
        loopBody v (iter (i + n)) =
          ([Event.checkConnected false, Event.logNotConnected], Flow.ret) := by
  intro fuel
  induction fuel with
  | zero => intro i pre post h; simp [publishLoop] at h
  | succ n ih =>
    intro i pre post h
    rw [publishLoop_succ] at h
    by_cases hr : (loopBody v (iter i)).2 = Flow.ret
    · simp only [hr, if_true] at h
      have hev := loopBody_ret v _ hr
      rw [hev] at h
      have hpre : pre = [] := by
        cases pre with
        | nil => rfl
        | cons a pre' =>
          cases pre' with
          | nil => simp at h
          | cons b pre'' => simp at h
      refine ⟨0, Nat.succ_pos _, ?_, ?_, ?_⟩
      · rw [hpre]; simp [publishLoop]
      · simp [publishLoop]
      · exact Prod.ext hev hr
    · simp only [hr, if_false] at h
      obtain ⟨mid, hmid, hrest⟩ := split_after _ _ _ _ _ (loopBody_next v _ hr) h
      obtain ⟨k, hk, hpre, hpub, hbody⟩ := ih _ _ _ hrest
      refine ⟨k + 1, by omega, ?_, ?_, ?_⟩
      · rw [publishLoop_succ, if_neg hr, hmid, hpre]
      · rw [publishLoop_succ, if_neg hr]; exact hpub
      · rw [show i + (k + 1) = i + 1 + k by omega]; exact hbody

/-- C8. Whenever the client reports itself not connected at the guard of the publish
loop, the pass logs the error and returns without calling publish: the pass consists of
the guard and the log line only, the events before the guard are those of startup and of
the complete passes that came before, and the only event after the guard is the log line.
No publish call follows in that pass or ever after: the loop function has returned (the
process stays alive, idle), and a longer run of the same world produces exactly the same
events. -/
theorem disconnected_guard_ends_publishing (w : World) (attempts fuel : Nat)
    (pre post : List Event)
    (h : trace w attempts fuel = pre ++ Event.checkConnected false :: post) :
    post = [Event.logNotConnected] ∧ noPublish post ∧
    outcome w attempts fuel = Outcome.idle ∧
    (∀ k, main w attempts (fuel + k) = main w attempts fuel) ∧
    (∃ port skip vr q rt hb n, n < fuel ∧
      Atoi (w.Getenv "MQTT_PORT") = some port ∧
      ParseBool (w.Getenv "MQTT_TLS_INSECURE_SKIP_VERIFY") = some skip ∧
      Atoi (w.Getenv "MQTT_VALUE_ROUND") = some vr ∧
      Atoi (w.Getenv "MQTT_QOS") = some q ∧ ParseBool (w.Getenv "MQTT_RETAIN") = some rt ∧
      Atoi (w.Getenv "HEARTBEAT_INTERVAL") = some hb ∧
      pre = connectPrefix w port skip ++ [Event.printConnected, Event.spawnPublishLoop] ++
        (publishLoop (loopVars w vr q rt hb) w.iter n 0).1 ∧
      (publishLoop (loopVars w vr q rt hb) w.iter n 0).2 = Outcome.publishing ∧
      (w.iter n).connectedAtGuard = false ∧
      loopBody (loopVars w vr q rt hb) (w.iter n) =
        ([Event.checkConnected false, Event.logNotConnected], Flow.ret)) ∧
    (∀ v inp, Event.checkConnected false ∈ (loopBody v inp).1 →
      inp.connectedAtGuard = false ∧
      loopBody v inp = ([Event.checkConnected false, Event.logNotConnected], Flow.ret)) ∧
    (∀ v inp, inp.connectedAtGuard = false → noPublish (loopBody v inp).1) ∧
    (∀ v inp load js, inp.cpu = Except.ok load →
      jsonMarshal ⟨v.mqtt_iid, v.mqtt_key, inp.now v.mqtt_time_format,
        round load v.mqtt_value_round⟩ = some js →
      inp.connectedAtGuard = false →
      loopBody v inp = ([Event.checkConnected false, Event.logNotConnected], Flow.ret)) := by
  have hpass : ∀ (v : LoopVars) (inp : IterInput),
      Event.checkConnected false ∈ (loopBody v inp).1 →
      inp.connectedAtGuard = false ∧
      loopBody v inp = ([Event.checkConnected false, Event.logNotConnected], Flow.ret) := by
    intro v inp hm
    by_cases hr : (loopBody v inp).2 = Flow.ret
    · rcases loopBody_cases v inp with ⟨err, h'⟩ | h' | ⟨hg, h'⟩ | ⟨load, js, _, _, _, h'⟩
      · rw [h'] at hr; simp at hr
      · rw [h'] at hr; simp at hr
      · exact ⟨hg, h'⟩
      · rw [h'] at hr; simp at hr
    · exact absurd hm (loopBody_next v inp hr)
  have hquiet : ∀ (v : LoopVars) (inp : IterInput), inp.connectedAtGuard = false →
      noPublish (loopBody v inp).1 := by
    intro v inp hg t q r p hm
    rcases loopBody_cases v inp with ⟨err, h'⟩ | h' | ⟨_, h'⟩ | ⟨load, js, _, hg', _, h'⟩
    · rw [h'] at hm; simp at hm
    · rw [h'] at hm; simp at hm
    · rw [h'] at hm; simp at hm
    · rw [hg] at hg'; simp at hg'
  have hreach : ∀ (v : LoopVars) (inp : IterInput) (load : F64) (js : String),
      inp.cpu = Except.ok load →
      jsonMarshal ⟨v.mqtt_iid, v.mqtt_key, inp.now v.mqtt_time_format,
        round load v.mqtt_value_round⟩ = some js →
      inp.connectedAtGuard = false →
      loopBody v inp = ([Event.checkConnected false, Event.logNotConnected], Flow.ret) := by
    intro v inp load js hc hj hg
    simp [loopBody, getCPULoad, hc, hj, hg]
  unfold trace at h
  unfold outcome
  rcases main_shape w attempts with ⟨evs, o, hs, _, _, hm⟩ |
    ⟨port, skip, vr, q, rt, hb, _, _, _, h1, h2, h3, h4, h5, h6, hm⟩
  · exfalso
    rw [hm fuel] at h
    have : Event.checkConnected false ∈ evs := by
      simp only at h
      rw [h]; simp
    exact absurd (hs _ this) (by simp [startupEvent])
  · rw [hm fuel] at h
    simp only at h
    have hx : Event.checkConnected false ∉
        connectPrefix w port skip ++ [Event.printConnected, Event.spawnPublishLoop] := by
      simp [connectPrefix]
    obtain ⟨mid, hmid, hrest⟩ := split_after _ _ _ _ _ hx h
    obtain ⟨hpost, hidle⟩ := publishLoop_guard _ _ _ _ _ _ hrest
    obtain ⟨n, hn, hpre, hpub, hbody⟩ := publishLoop_guard_pass _ _ _ _ _ _ hrest
    rw [Nat.zero_add] at hbody
    refine ⟨hpost, ?_, ?_, ?_, ?_, hpass, hquiet, hreach⟩
    · rw [hpost]; simp [noPublish]
    · rw [hm fuel]; exact hidle
    · intro k
      rw [hm (fuel + k), hm fuel, publishLoop_idle_stable _ _ _ _ hidle k]
    · refine ⟨port, skip, vr, q, rt, hb, n, hn, h1, h2, h3, h4, h5, h6, ?_, hpub, ?_, hbody⟩
      · rw [hmid, hpre]
      · exact (hpass _ _ (by rw [hbody]; simp)).1

/-- Witness of C8: in the sample world the guard fails in the third pass, which consists
of the guard and the log line; the events before it are those of startup and of the two
complete passes; eight passes give the same run as three. -/
theorem disconnected_guard_ends_publishing_witness :
    trace sampleWorld 1 3 =
      (connectPrefix sampleWorld 8883 false ++ [Event.printConnected, Event.spawnPublishLoop] ++
        (publishLoop (loopVars sampleWorld 1 1 false 5000) sampleWorld.iter 2 0).1) ++
      Event.checkConnected false :: [Event.logNotConnected] ∧
    loopBody (loopVars sampleWorld 1 1 false 5000) (sampleWorld.iter 2) =
      ([Event.checkConnected false, Event.logNotConnected], Flow.ret) ∧
    outcome sampleWorld 1 3 = Outcome.idle ∧
    main sampleWorld 1 (3 + 5) = main sampleWorld 1 3 :=
  ⟨by decide, by decide,
   (disconnected_guard_ends_publishing sampleWorld 1 3
    (connectPrefix sampleWorld 8883 false ++ [Event.printConnected, Event.spawnPublishLoop] ++
      (publishLoop (loopVars sampleWorld 1 1 false 5000) sampleWorld.iter 2 0).1)
    [Event.logNotConnected] (by decide)).2.2.1,
   (disconnected_guard_ends_publishing sampleWorld 1 3
    (connectPrefix sampleWorld 8883 false ++ [Event.printConnected, Event.spawnPublishLoop] ++
      (publishLoop (loopVars sampleWorld 1 1 false 5000) sampleWorld.iter 2 0).1)
    [Event.logNotConnected] (by decide)).2.2.2.1 5⟩

/-! ## C7: one connect attempt -/

theorem publishCPULoad_no_startup (topic protocol : String) (w : World) (fuel : Nat) :
    Event.connect ∉ (publishCPULoad topic protocol w fuel).1 ∧
    Event.spawnPublishLoop ∉ (publishCPULoad topic protocol w fuel).1 ∧
    ∀ opts, Event.newClient opts ∉ (publishCPULoad topic protocol w fuel).1 := by
  have key : ∀ e, e ∈ (publishCPULoad topic protocol w fuel).1 →
      (∃ site, e = Event.fatal site) ∨ ∃ v, loopEvent v e := by
    intro e he
    rcases publishCPULoad_cases topic protocol w fuel with
      ⟨_, h⟩ | ⟨_, h⟩ | ⟨_, h⟩ | ⟨_, h⟩ | ⟨vr, q, rt, hb, h1, h2, h3, h4, h⟩ <;> rw [h] at he
    · simp at he; exact Or.inl ⟨_, he⟩
    · simp at he; exact Or.inl ⟨_, he⟩
    · simp at he; exact Or.inl ⟨_, he⟩
    · simp at he; exact Or.inl ⟨_, he⟩
    · exact Or.inr ⟨_, publishLoop_loopEvent _ _ _ _ e he⟩
  refine ⟨?_, ?_, ?_⟩
  · intro h
    rcases key _ h with ⟨site, hs⟩ | ⟨v, hv⟩
    · simp at hs
    · exact hv
  · intro h
    rcases key _ h with ⟨site, hs⟩ | ⟨v, hv⟩
    · simp at hs
    · exact hv
  · intro opts h
    rcases key _ h with ⟨site, hs⟩ | ⟨v, hv⟩
    · simp at hs
    · exact hv

/-- After a successful startup, a run with at least one connect pass allowed is the
startup prefix, the connect call, and then either the panic or the publish loop. -/
theorem main_succ_of_startupOk (w : World) (hs : startupOk w = true) :
    ∃ port skip, Atoi (w.Getenv "MQTT_PORT") = some port ∧
      ParseBool (w.Getenv "MQTT_TLS_INSECURE_SKIP_VERIFY") = some skip ∧
      ∀ attempts fuel, main w (attempts + 1) fuel =
      (connectPrefix w port skip ++
        (match w.connectError 0 with
          | some err => [Event.panic err]
          | none => [Event.printConnected, Event.spawnPublishLoop] ++
              (publishCPULoad (w.Getenv "MQTT_TOPIC") (w.Getenv "MQTT_PROTOCOL") w fuel).1),
       (match w.connectError 0 with
          | some err => Outcome.panicked err
          | none => (publishCPULoad (w.Getenv "MQTT_TOPIC") (w.Getenv "MQTT_PROTOCOL") w fuel).2)) := by
  simp only [startupOk, Bool.and_eq_true, Option.isSome_iff_exists] at hs
  obtain ⟨⟨⟨⟨f, h0⟩, ⟨port, h1⟩⟩, ⟨skip, h2⟩⟩, h3⟩ := hs
  refine ⟨port, skip, h1, h2, ?_⟩
  intro attempts fuel
  cases hc : w.connectError 0 <;>
    simp [main, h0, h1, h2, NewTlsConfig, h3, connectLoop, connectPass, hc, tokenWait,
      connectPrefix, clientOptions]

/-- After a successful startup exactly one connect attempt is made, and it decides the
rest of the run. -/
theorem connect_once_after_startup (w : World) (attempts fuel : Nat)
    (hs : startupOk w = true) :
    (trace w (attempts + 1) fuel).count Event.connect = 1 ∧
    main w (attempts + 1) fuel = main w 1 fuel ∧
    (∀ err, w.connectError 0 = some err →
      outcome w (attempts + 1) fuel = Outcome.panicked err ∧
      Event.spawnPublishLoop ∉ trace w (attempts + 1) fuel ∧
      noPublish (trace w (attempts + 1) fuel)) ∧
    (w.connectError 0 = none →
      (trace w (attempts + 1) fuel).count Event.spawnPublishLoop = 1 ∧
      ∃ port skip, main w (attempts + 1) fuel =
        (connectPrefix w port skip ++ [Event.printConnected, Event.spawnPublishLoop] ++
          (publishCPULoad (w.Getenv "MQTT_TOPIC") (w.Getenv "MQTT_PROTOCOL") w fuel).1,
         (publishCPULoad (w.Getenv "MQTT_TOPIC") (w.Getenv "MQTT_PROTOCOL") w fuel).2)) := by
  have hpub := publishCPULoad_no_startup (w.Getenv "MQTT_TOPIC") (w.Getenv "MQTT_PROTOCOL") w fuel
  obtain ⟨port, skip, _, _, hm⟩ := main_succ_of_startupOk w hs
  have hm1 := hm 0 fuel
  simp only [Nat.zero_add] at hm1
  refine ⟨?_, by rw [hm attempts fuel, hm1], ?_, ?_⟩
  · unfold trace
    rw [hm attempts fuel]
    cases hc : w.connectError 0 with
    | some err => simp [connectPrefix, List.count_cons]
    | none =>
      simp only [List.count_append]
      rw [List.count_eq_zero_of_not_mem hpub.1]
      simp [connectPrefix, List.count_cons]
  · intro err hc
    unfold outcome trace
    rw [hm attempts fuel, hc]
    refine ⟨rfl, by simp [connectPrefix], ?_⟩
    intro t q r p
    simp [connectPrefix]
  · intro hc
    unfold trace
    rw [hm attempts fuel, hc]
    refine ⟨?_, port, skip, by simp⟩
    simp only [List.count_append]
    rw [List.count_eq_zero_of_not_mem hpub.2.1]
    simp [connectPrefix, List.count_cons]

/-- C7. No run makes more than one connect attempt. When startup gets as far as the
connect loop, exactly one attempt is made, whatever number of passes the loop is allowed
(a run allowed many passes is the run allowed one pass): if the attempt reports an error
the process panics, the publish loop is never started and nothing is published; if it
succeeds the publish loop is started exactly once and from then on the only events are
those of the publish loop (main is parked in `select {}`). -/
theorem single_connect_attempt (w : World) (attempts fuel : Nat) :
    (trace w attempts fuel).count Event.connect ≤ 1 ∧
    (startupOk w = true →
      (trace w (attempts + 1) fuel).count Event.connect = 1 ∧
      main w (attempts + 1) fuel = main w 1 fuel ∧
      (∀ err, w.connectError 0 = some err →
        outcome w (attempts + 1) fuel = Outcome.panicked err ∧
        Event.spawnPublishLoop ∉ trace w (attempts + 1) fuel ∧
        noPublish (trace w (attempts + 1) fuel)) ∧
      (w.connectError 0 = none →
        (trace w (attempts + 1) fuel).count Event.spawnPublishLoop = 1 ∧
        ∃ port skip, main w (attempts + 1) fuel =
          (connectPrefix w port skip ++ [Event.printConnected, Event.spawnPublishLoop] ++
            (publishCPULoad (w.Getenv "MQTT_TOPIC") (w.Getenv "MQTT_PROTOCOL") w fuel).1,
           (publishCPULoad (w.Getenv "MQTT_TOPIC") (w.Getenv "MQTT_PROTOCOL") w fuel).2))) := by
  refine ⟨?_, connect_once_after_startup w attempts fuel⟩
  cases hs : startupOk w with
  | false =>
    obtain ⟨site, pre, hm, hnc, _, _⟩ := main_of_not_startupOk w attempts fuel hs
    unfold trace
    rw [hm]
    rw [List.count_eq_zero_of_not_mem hnc.1]
    exact Nat.zero_le _
  | true =>
    cases attempts with
    | zero =>
      obtain ⟨port, opts, hm⟩ := main_of_startupOk w 0 fuel hs
      unfold trace
      rw [hm]
      simp [connectLoop, List.count_cons]
    | succ n => exact le_of_eq (connect_once_after_startup w n fuel hs).1

/-- Witness of C7: the sample world, and the sample world with a broker that refuses the
first connection and would accept a second one. -/
theorem single_connect_attempt_witness :
    startupOk sampleWorld = true ∧
    (trace sampleWorld 8 2).count Event.connect = 1 ∧
    outcome refusedWorld 8 2 = Outcome.panicked "refused" :=
  ⟨by decide,
   ((single_connect_attempt sampleWorld 7 2).2 (by decide)).1,
   (((single_connect_attempt refusedWorld 7 2).2 (by decide)).2.2.1 "refused" (by decide)).1⟩

/-! ## C5: malformed configuration -/

/-- Counterexample to C5: with a malformed `MQTT_QOS` the process does exit fatally, but
only after the broker connection has been attempted. -/
theorem bad_qos_connects_before_exit :
    Atoi (badQosWorld.Getenv "MQTT_QOS") = none ∧
    Event.connect ∈ trace badQosWorld 1 1 ∧
    outcome badQosWorld 1 1 = Outcome.exited FatalSite.qosParse := by
  decide

theorem main_noPublish_of_bad_loop_config (w : World) (attempts fuel : Nat)
    (h : Atoi (w.Getenv "MQTT_VALUE_ROUND") = none ∨ Atoi (w.Getenv "MQTT_QOS") = none ∨
      ParseBool (w.Getenv "MQTT_RETAIN") = none ∨ Atoi (w.Getenv "HEARTBEAT_INTERVAL") = none) :
    noPublish (trace w attempts fuel) := by
  intro t q r p hm
  rcases main_mem w attempts fuel _ hm with h' | ⟨vr, q', rt, hb, h1, h2, h3, h4, _⟩
  · exact absurd h' (by simp [startupEvent])
  · rcases h with h | h | h | h
    · rw [h1] at h; simp at h
    · rw [h2] at h; simp at h
    · rw [h3] at h; simp at h
    · rw [h4] at h; simp at h

/-- C5, amended. A missing variable reads as the empty string, which parses neither as an
integer nor as a boolean. If `MQTT_PORT` or `MQTT_TLS_INSECURE_SKIP_VERIFY` fails to parse,
the run is a single fatal exit in the configuration step of `main`: no client is created,
no connect call is made, nothing is published. If `MQTT_VALUE_ROUND`, `MQTT_QOS`,
`MQTT_RETAIN` or `HEARTBEAT_INTERVAL` fails to parse, nothing is ever published and the
process still terminates, but these four are parsed at the start of `publishCPULoad`: when
startup and the connect attempt succeed, the fatal exit comes after the connect call. -/
theorem config_errors_fatal (w : World) (attempts fuel : Nat) :
    (Atoi "" = none ∧ ParseBool "" = none ∧
      ∀ k, w.procEnv k = none → (∀ f, w.dotenv = some f → f k = none) → w.Getenv k = "") ∧
    ((Atoi (w.Getenv "MQTT_PORT") = none ∨
        ParseBool (w.Getenv "MQTT_TLS_INSECURE_SKIP_VERIFY") = none) →
      (∃ site, main w attempts fuel = ([Event.fatal site], Outcome.exited site)) ∧
      noConnect (trace w attempts fuel) ∧ noPublish (trace w attempts fuel)) ∧
    ((Atoi (w.Getenv "MQTT_VALUE_ROUND") = none ∨ Atoi (w.Getenv "MQTT_QOS") = none ∨
        ParseBool (w.Getenv "MQTT_RETAIN") = none ∨
        Atoi (w.Getenv "HEARTBEAT_INTERVAL") = none) →
      noPublish (trace w attempts fuel) ∧
      ((∃ site, outcome w (attempts + 1) fuel = Outcome.exited site) ∨
        ∃ err, outcome w (attempts + 1) fuel = Outcome.panicked err) ∧
      (startupOk w = true → w.connectError 0 = none →
        ∃ port skip site, main w (attempts + 1) fuel =
          (connectPrefix w port skip ++
            [Event.printConnected, Event.spawnPublishLoop, Event.fatal site],
           Outcome.exited site))) := by
  refine ⟨⟨by decide, by decide, ?_⟩, ?_, ?_⟩
  · intro k hk hf
    unfold World.Getenv
    rw [hk]
    cases hd : w.dotenv with
    | none => rfl
    | some f => simp [hf f hd]
  · intro h
    rcases main_cases w attempts fuel with
      ⟨_, h'⟩ | ⟨_, _, h'⟩ | ⟨_, _, _, h'⟩ | ⟨port, _, h1, h2, _, _⟩ | ⟨port, opts, _, h1, h2, _, _⟩
    · exact ⟨⟨_, h'⟩, by simp [trace, h', noConnect], by simp [trace, h', noPublish]⟩
    · exact ⟨⟨_, h'⟩, by simp [trace, h', noConnect], by simp [trace, h', noPublish]⟩
    · exact ⟨⟨_, h'⟩, by simp [trace, h', noConnect], by simp [trace, h', noPublish]⟩
    · rcases h with h | h
      · rw [h1] at h; simp at h
      · exact absurd h h2
    · rcases h with h | h
      · rw [h1] at h; simp at h
      · exact absurd h h2
  · intro h
    have hpubcases : ∃ site, publishCPULoad (w.Getenv "MQTT_TOPIC") (w.Getenv "MQTT_PROTOCOL") w fuel
        = ([Event.fatal site], Outcome.exited site) := by
      rcases publishCPULoad_cases (w.Getenv "MQTT_TOPIC") (w.Getenv "MQTT_PROTOCOL") w fuel with
        ⟨_, h'⟩ | ⟨_, h'⟩ | ⟨_, h'⟩ | ⟨_, h'⟩ | ⟨vr, q, rt, hb, h1, h2, h3, h4, _⟩
      · exact ⟨_, h'⟩
      · exact ⟨_, h'⟩
      · exact ⟨_, h'⟩
      · exact ⟨_, h'⟩
      · rcases h with h | h | h | h
        · rw [h1] at h; simp at h
        · rw [h2] at h; simp at h
        · rw [h3] at h; simp at h
        · rw [h4] at h; simp at h
    obtain ⟨site, hsite⟩ := hpubcases
    refine ⟨main_noPublish_of_bad_loop_config w attempts fuel h, ?_, ?_⟩
    · cases hs : startupOk w with
      | false =>
        obtain ⟨site', pre, hm, _⟩ := main_of_not_startupOk w (attempts + 1) fuel hs
        exact Or.inl ⟨site', by simp [outcome, hm]⟩
      | true =>
        obtain ⟨port, skip, _, _, hm⟩ := main_succ_of_startupOk w hs
        cases hc : w.connectError 0 with
        | some err => exact Or.inr ⟨err, by simp [outcome, hm, hc]⟩
        | none => exact Or.inl ⟨site, by simp [outcome, hm, hc, hsite]⟩
    · intro hs hc
      obtain ⟨port, skip, _, _, hm⟩ := main_succ_of_startupOk w hs
      exact ⟨port, skip, site, by simp [hm, hc, hsite]⟩

/-- Witness of C5 as amended: a malformed port, and a malformed QoS. -/
theorem config_errors_fatal_witness :
    noConnect (trace badPortWorld 1 1) ∧
    (∃ port skip site, main badQosWorld 1 1 =
      (connectPrefix badQosWorld port skip ++
        [Event.printConnected, Event.spawnPublishLoop, Event.fatal site], Outcome.exited site)) :=
  ⟨((config_errors_fatal badPortWorld 1 1).2.1 (Or.inl (by decide))).2.1,
   ((config_errors_fatal badQosWorld 0 1).2.2 (Or.inr (Or.inl (by decide)))).2.2
     (by decide) (by decide)⟩

/-! ## C6: the CA file -/

/-- C6. If `ca_3.pem` cannot be read, every run ends in a fatal exit without creating an
MQTT client, making a connect call or publishing; a run that gets to the failed read ends
right there, inside `NewTlsConfig`; and every run whose `.env` loads and whose port and
skip-verify values parse does get to the read. -/
theorem ca_unreadable_no_connect (w : World) (attempts fuel : Nat)
    (h : w.caReadable = false) :
    (∃ site, outcome w attempts fuel = Outcome.exited site) ∧
    noConnect (trace w attempts fuel) ∧ noPublish (trace w attempts fuel) ∧
    (∀ pre post, trace w attempts fuel = pre ++ Event.readCA false :: post →
      post = [Event.fatal FatalSite.caRead] ∧
      outcome w attempts fuel = Outcome.exited FatalSite.caRead) ∧
    (w.dotenv.isSome = true → (Atoi (w.Getenv "MQTT_PORT")).isSome = true →
      (ParseBool (w.Getenv "MQTT_TLS_INSECURE_SKIP_VERIFY")).isSome = true →
      ∃ port, main w attempts fuel =
        ([Event.printConnectTo (w.Getenv "MQTT_PROTOCOL") (w.Getenv "MQTT_BROKER") port,
          Event.readCA false, Event.fatal FatalSite.caRead],
         Outcome.exited FatalSite.caRead)) := by
  have hs : startupOk w = false := by simp [startupOk, h]
  obtain ⟨site, pre, hm, hnc, hnp, _⟩ := main_of_not_startupOk w attempts fuel hs
  refine ⟨⟨site, by simp [outcome, hm]⟩, by simpa [trace, hm] using hnc,
    by simpa [trace, hm] using hnp, ?_, ?_⟩
  · intro pre' post ht
    unfold trace at ht
    unfold outcome
    rcases main_cases w attempts fuel with
      ⟨_, h'⟩ | ⟨_, _, h'⟩ | ⟨_, _, _, h'⟩ | ⟨port, _, _, _, _, h'⟩ | ⟨port, opts, _, _, _, h3, _⟩
    · rw [h'] at ht
      cases pre' with
      | nil => simp at ht
      | cons a l => simp at ht
    · rw [h'] at ht
      cases pre' with
      | nil => simp at ht
      | cons a l => simp at ht
    · rw [h'] at ht
      cases pre' with
      | nil => simp at ht
      | cons a l => simp at ht
    · rw [h'] at ht ⊢
      cases pre' with
      | nil => simp at ht
      | cons a l =>
        cases l with
        | nil => simp at ht; exact ⟨ht.2.symm, rfl⟩
        | cons b l' =>
          cases l' with
          | nil => simp at ht
          | cons c l'' => simp at ht
    · rw [h] at h3; simp at h3
  · intro h0 h1 h2
    rcases main_cases w attempts fuel with
      ⟨h0', _⟩ | ⟨_, h1', _⟩ | ⟨_, _, h2', _⟩ | ⟨port, _, _, _, _, h'⟩ | ⟨port, opts, _, _, _, h3, _⟩
    · rw [h0'] at h0; simp at h0
    · rw [h1'] at h1; simp at h1
    · rw [h2'] at h2; simp at h2
    · exact ⟨port, h'⟩
    · rw [h] at h3; simp at h3

/-- Witness of C6: the sample world without its CA file. -/
theorem ca_unreadable_no_connect_witness :
    noCaWorld.caReadable = false ∧ noConnect (trace noCaWorld 1 1) ∧
    trace noCaWorld 1 1 = [Event.printConnectTo "ssl" "broker.local" 8883,
      Event.readCA false, Event.fatal FatalSite.caRead] :=
  ⟨rfl, (ca_unreadable_no_connect noCaWorld 1 1 rfl).2.1, by decide⟩

/-! ## C9: the dotfile -/

/-- Counterexample to C9: the process environment holds every value in well-formed form
and the CA file is readable, but `.env` cannot be loaded: the run is a single fatal exit,
without TLS setup or connect attempt. -/
theorem dotenv_missing_is_fatal :
    envWellFormed noDotenvWorld.procEnv = true ∧ noDotenvWorld.caReadable = true ∧
    main noDotenvWorld 1 1 =
      ([Event.fatal FatalSite.dotenvLoad], Outcome.exited FatalSite.dotenvLoad) := by
  decide

theorem Getenv_of_procEnv (w : World) (k v : String) (h : w.procEnv k = some v) :
    w.Getenv k = v := by
  simp [World.Getenv, h]

/-- C9, amended. The dotfile is required: when `godotenv.Load` fails, the run is a single
fatal exit, whatever the process environment holds. When the load succeeds and the
process environment already holds the numeric and boolean values in well-formed form,
the contents of the dotfile do not matter: the program goes on to the TLS setup and, when
the CA file is readable, to the connect attempt. -/
theorem dotenv_required (w : World) (attempts fuel : Nat) :
    (w.dotenv = none → main w attempts fuel =
      ([Event.fatal FatalSite.dotenvLoad], Outcome.exited FatalSite.dotenvLoad)) ∧
    (w.dotenv.isSome = true → envWellFormed w.procEnv = true →
      Event.readCA w.caReadable ∈ trace w attempts fuel ∧
      (w.caReadable = true → Event.connect ∈ trace w (attempts + 1) fuel)) := by
  refine ⟨fun h0 => by simp [main, h0], ?_⟩
  intro h0 hwf
  simp only [envWellFormed, Bool.and_eq_true, Option.isSome_iff_exists,
    Option.bind_eq_some] at hwf
  obtain ⟨⟨⟨⟨⟨⟨port, sp, hp1, hp2⟩, ⟨skip, ss, hs1, hs2⟩⟩, _⟩, _⟩, _⟩, _⟩ := hwf
  have e1 : Atoi (w.Getenv "MQTT_PORT") = some port := by
    rw [Getenv_of_procEnv w _ _ hp1]; exact hp2
  have e2 : ParseBool (w.Getenv "MQTT_TLS_INSECURE_SKIP_VERIFY") = some skip := by
    rw [Getenv_of_procEnv w _ _ hs1]; exact hs2
  refine ⟨?_, ?_⟩
  · rcases main_cases w attempts fuel with
      ⟨h0', _⟩ | ⟨_, h1', _⟩ | ⟨_, _, h2', _⟩ | ⟨p, _, _, _, h3, h'⟩ | ⟨p, opts, _, _, _, h3, h'⟩
    · rw [h0'] at h0; simp at h0
    · rw [e1] at h1'; simp at h1'
    · rw [e2] at h2'; simp at h2'
    · simp [trace, h', h3]
    · simp [trace, h', h3]
  · intro h3
    have hs : startupOk w = true := by simp [startupOk, h0, e1, e2, h3]
    have := (connect_once_after_startup w attempts fuel hs).1
    exact List.count_pos_iff.mp (by omega)

/-- Witness of C9 as amended: the sample world, whose `.env` is empty. -/
theorem dotenv_required_witness :
    sampleWorld.dotenv.isSome = true ∧ envWellFormed sampleWorld.procEnv = true ∧
    Event.connect ∈ trace sampleWorld 1 1 :=
  ⟨rfl, by decide,
   ((dotenv_required sampleWorld 0 1).2 rfl (by decide)).2 rfl⟩

/-! ## C4: pacing -/

theorem log2Fuel_spec : ∀ fuel n, 0 < n → n ≤ fuel →
    2 ^ log2Fuel fuel n ≤ n ∧ n < 2 ^ (log2Fuel fuel n + 1) := by
  intro fuel
  induction fuel with
  | zero => intro n h1 h2; omega
  | succ k ih =>
    intro n h1 h2
    unfold log2Fuel
    by_cases hn : n < 2
    · rw [if_pos hn]
      simp
      omega
    · rw [if_neg hn]
      have h3 : 0 < n / 2 := by omega
      have h4 : n / 2 ≤ k := by omega
      obtain ⟨ha, hb⟩ := ih (n / 2) h3 h4
      rw [pow_succ, pow_succ]
      rw [pow_succ] at hb
      constructor <;> omega

theorem log2_spec (n : Nat) (h : 0 < n) : 2 ^ log2 n ≤ n ∧ n < 2 ^ (log2 n + 1) :=
  log2Fuel_spec n n h (le_refl n)

/-- An integer power as a quotient of two natural powers. -/
theorem zpow_split (b : ℚ) (e : ℤ) :
    b ^ e = b ^ e.toNat / b ^ (-e).toNat := by
  rcases le_total 0 e with he | he
  · obtain ⟨k, rfl⟩ := Int.eq_ofNat_of_zero_le he
    have h1 : (-(k : ℤ)).toNat = 0 := by omega
    simp [h1]
  · obtain ⟨k, hk⟩ := Int.eq_ofNat_of_zero_le (neg_nonneg.mpr he)
    have he' : e = -(k : ℤ) := by omega
    subst he'
    have h1 : (-(k : ℤ)).toNat = 0 := by omega
    simp [h1]

theorem ilog2_spec (p q : Nat) (hp : 0 < p) (hq : 0 < q) :
    (2 : ℚ) ^ ilog2 p q ≤ (p : ℚ) / q ∧ (p : ℚ) / q < (2 : ℚ) ^ (ilog2 p q + 1) := by
  obtain ⟨pa, pb⟩ := log2_spec p hp
  obtain ⟨qa, qb⟩ := log2_spec q hq
  have hq0 : (0 : ℚ) < q := by exact_mod_cast hq
  have hpa : (2 : ℚ) ^ (log2 p : ℤ) ≤ p := by
    rw [zpow_natCast]; exact_mod_cast pa
  have hpb : (p : ℚ) < (2 : ℚ) ^ ((log2 p : ℤ) + 1) := by
    rw [show ((log2 p : ℤ) + 1) = ((log2 p + 1 : ℕ) : ℤ) by push_cast; ring, zpow_natCast]
    exact_mod_cast pb
  have hqa : (2 : ℚ) ^ (log2 q : ℤ) ≤ q := by
    rw [zpow_natCast]; exact_mod_cast qa
  have hqb : (q : ℚ) < (2 : ℚ) ^ ((log2 q : ℤ) + 1) := by
    rw [show ((log2 q : ℤ) + 1) = ((log2 q + 1 : ℕ) : ℤ) by push_cast; ring, zpow_natCast]
    exact_mod_cast qb
  have h2 : (2 : ℚ) ≠ 0 := by norm_num
  set k : ℤ := (log2 p : ℤ) - (log2 q : ℤ) with hk
  have hcond : (q * 2 ^ k.toNat ≤ p * 2 ^ (-k).toNat) ↔ (2 : ℚ) ^ k ≤ (p : ℚ) / q := by
    rw [zpow_split 2 k, le_div_iff₀ hq0, div_mul_eq_mul_div, div_le_iff₀ (by positivity)]
    constructor
    · intro h
      have : ((q * 2 ^ k.toNat : ℕ) : ℚ) ≤ ((p * 2 ^ (-k).toNat : ℕ) : ℚ) := by exact_mod_cast h
      push_cast at this
      linarith
    · intro h
      have : ((q * 2 ^ k.toNat : ℕ) : ℚ) ≤ ((p * 2 ^ (-k).toNat : ℕ) : ℚ) := by
        push_cast; linarith
      exact_mod_cast this
  have hup : (p : ℚ) / q < (2 : ℚ) ^ (k + 1) := by
    rw [div_lt_iff₀ hq0]
    have : (2 : ℚ) ^ (k + 1) * (2 : ℚ) ^ (log2 q : ℤ) = (2 : ℚ) ^ ((log2 p : ℤ) + 1) := by
      rw [← zpow_add₀ h2]; congr 1; omega
    calc (p : ℚ) < (2 : ℚ) ^ ((log2 p : ℤ) + 1) := hpb
      _ = (2 : ℚ) ^ (k + 1) * (2 : ℚ) ^ (log2 q : ℤ) := this.symm
      _ ≤ (2 : ℚ) ^ (k + 1) * q := by
          apply mul_le_mul_of_nonneg_left hqa; positivity
  have hlow : (2 : ℚ) ^ (k - 1) ≤ (p : ℚ) / q := by
    rw [le_div_iff₀ hq0]
    have : (2 : ℚ) ^ (k - 1) * (2 : ℚ) ^ ((log2 q : ℤ) + 1) = (2 : ℚ) ^ (log2 p : ℤ) := by
      rw [← zpow_add₀ h2]; congr 1; omega
    calc (2 : ℚ) ^ (k - 1) * q ≤ (2 : ℚ) ^ (k - 1) * (2 : ℚ) ^ ((log2 q : ℤ) + 1) := by
          apply mul_le_mul_of_nonneg_left (le_of_lt hqb); positivity
      _ = (2 : ℚ) ^ (log2 p : ℤ) := this
      _ ≤ p := hpa
  unfold ilog2
  simp only []
  by_cases hc : q * 2 ^ k.toNat ≤ p * 2 ^ (-k).toNat
  · rw [if_pos hc]
    exact ⟨hcond.mp hc, hup⟩
  · rw [if_neg hc]
    refine ⟨hlow, ?_⟩
    have := mt hcond.mpr hc
    rw [show k - 1 + 1 = k by ring]
    exact lt_of_not_le this

theorem zlog_unique (x : ℚ) (a b : ℤ) (ha : (2 : ℚ) ^ a ≤ x) (ha' : x < (2 : ℚ) ^ (a + 1))
    (hb : (2 : ℚ) ^ b ≤ x) (hb' : x < (2 : ℚ) ^ (b + 1)) : a = b := by
  have h1 : (2 : ℚ) ^ a < (2 : ℚ) ^ (b + 1) := lt_of_le_of_lt ha hb'
  have h2 : (2 : ℚ) ^ b < (2 : ℚ) ^ (a + 1) := lt_of_le_of_lt hb ha'
  have h3 := (zpow_lt_zpow_iff_right₀ (by norm_num : (1 : ℚ) < 2)).mp h1
  have h4 := (zpow_lt_zpow_iff_right₀ (by norm_num : (1 : ℚ) < 2)).mp h2
  omega

theorem log2_of_bounds (m L : Nat) (h1 : 2 ^ L ≤ m) (h2 : m < 2 ^ (L + 1)) : log2 m = L := by
  have hm : 0 < m := lt_of_lt_of_le (by positivity) h1
  obtain ⟨a, b⟩ := log2_spec m hm
  have h3 : 2 ^ log2 m < 2 ^ (L + 1) := lt_of_le_of_lt a h2
  have h4 : 2 ^ L < 2 ^ (log2 m + 1) := lt_of_le_of_lt h1 b
  have h5 := (Nat.pow_lt_pow_iff_right (by norm_num : 1 < 2)).mp h3
  have h6 := (Nat.pow_lt_pow_iff_right (by norm_num : 1 < 2)).mp h4
  omega

/-- Rounding a rational that is a well-formed binary64 value gives that value. -/
theorem roundRat_exact (neg : Bool) (p q m : Nat) (e : Int) (hq : 0 < q)
    (hwf : (F64.fin neg m e).wf) (hv : (p : ℚ) / q = (m : ℚ) * (2 : ℚ) ^ e) :
    roundRat neg p q = F64.fin neg m e := by
  obtain ⟨hm53, he1, he2, hnorm⟩ := hwf
  have hq0 : (0 : ℚ) < q := by exact_mod_cast hq
  have h2pos : ∀ z : ℤ, (0 : ℚ) < (2 : ℚ) ^ z := fun z => by positivity
  rcases Nat.eq_zero_or_pos m with hm | hm
  · subst hm
    have hp : p = 0 := by
      have : (p : ℚ) / q = 0 := by rw [hv]; simp
      rcases div_eq_zero_iff.mp this with h | h
      · exact_mod_cast h
      · exact absurd h (ne_of_gt hq0)
    have he : e = -1074 := by
      rcases hnorm with h | h
      · exact absurd h (by norm_num)
      · exact h
    subst hp he
    simp [roundRat]
  · have hp : 0 < p := by
      have : (0 : ℚ) < (p : ℚ) / q := by
        rw [hv]; have := h2pos e; positivity
      have h' : (0 : ℚ) < p := by
        rcases (div_pos_iff.mp this) with ⟨h, _⟩ | ⟨_, h⟩
        · exact h
        · exact absurd h (not_lt.mpr (le_of_lt hq0))
      exact_mod_cast h'
    obtain ⟨la, lb⟩ := log2_spec m hm
    have hil : ilog2 p q = (log2 m : ℤ) + e := by
      obtain ⟨ia, ib⟩ := ilog2_spec p q hp hq
      apply zlog_unique ((p : ℚ) / q) _ _ ia ib
      · rw [hv, zpow_add₀ (by norm_num : (2 : ℚ) ≠ 0), zpow_natCast]
        apply mul_le_mul_of_nonneg_right _ (le_of_lt (h2pos e))
        exact_mod_cast la
      · rw [hv, show (log2 m : ℤ) + e + 1 = ((log2 m + 1 : ℕ) : ℤ) + e by push_cast; ring,
          zpow_add₀ (by norm_num : (2 : ℚ) ≠ 0), zpow_natCast]
        apply mul_lt_mul_of_pos_right _ (h2pos e)
        exact_mod_cast lb
    have hL : log2 m ≤ 52 := by
      by_contra hcon
      have : 2 ^ 53 ≤ 2 ^ log2 m := Nat.pow_le_pow_right (by norm_num) (by omega)
      omega
    have hE : max (ilog2 p q - 52) (-1074) = e := by
      rw [hil]
      rcases hnorm with h | h
      · have : log2 m = 52 := log2_of_bounds m 52 h hm53
        rw [this]
        have : ((52 : ℕ) : ℤ) + e - 52 = e := by push_cast; ring
        rw [this]
        exact max_eq_left he1
      · subst h
        apply max_eq_right
        omega
    have hnum : p * 2 ^ (-e).toNat = m * (q * 2 ^ e.toNat) := by
      have h1 : (p : ℚ) = (m : ℚ) * (2 : ℚ) ^ e * q := by
        rw [← hv]; field_simp
      rw [zpow_split 2 e] at h1
      have h3 : (0 : ℚ) < (2 : ℚ) ^ (-e).toNat := by positivity
      have h4 : (p : ℚ) * (2 : ℚ) ^ (-e).toNat = (m : ℚ) * ((q : ℚ) * (2 : ℚ) ^ e.toNat) := by
        rw [h1]; field_simp; ring
      exact_mod_cast h4
    have hden : 0 < q * 2 ^ e.toNat := by positivity
    unfold roundRat
    rw [if_neg (by omega)]
    simp only [hE, hnum, Nat.mul_div_cancel _ hden, Nat.mul_mod_left]
    have hc : ¬ (q * 2 ^ e.toNat < 2 * 0 ∨ 2 * 0 = q * 2 ^ e.toNat ∧ m % 2 = 1) := by
      omega
    rw [if_neg hc, if_neg (by omega), if_neg (by omega), if_neg (by omega)]

theorem roundRat_wf (neg : Bool) (p q : Nat) (hq : 0 < q) : (roundRat neg p q).wf := by
  unfold roundRat
  by_cases hp0 : p = 0
  · rw [if_pos hp0]
    simp [F64.wf]
  · rw [if_neg hp0]
    have hp : 0 < p := Nat.pos_of_ne_zero hp0
    obtain ⟨ia, ib⟩ := ilog2_spec p q hp hq
    simp only []
    generalize hE : max (ilog2 p q - 52) (-1074) = E
    have hE1 : -1074 ≤ E := by rw [← hE]; exact le_max_right _ _
    have hE2 : ilog2 p q - 52 ≤ E := by rw [← hE]; exact le_max_left _ _
    have hE3 : E = ilog2 p q - 52 ∨ E = -1074 := by
      rw [← hE]
      rcases le_total (ilog2 p q - 52) (-1074) with h | h
      · right; exact max_eq_right h
      · left; exact max_eq_left h
    have hq0 : (0 : ℚ) < q := by exact_mod_cast hq
    have hden : 0 < q * 2 ^ E.toNat := by positivity
    have hdenq : (0 : ℚ) < ((q * 2 ^ E.toNat : ℕ) : ℚ) := by exact_mod_cast hden
    have hquot : ((p * 2 ^ (-E).toNat : ℕ) : ℚ) / ((q * 2 ^ E.toNat : ℕ) : ℚ) =
        (p : ℚ) / q / (2 : ℚ) ^ E := by
      rw [zpow_split 2 E]
      push_cast
      field_simp
    have hupper : p * 2 ^ (-E).toNat < 2 ^ 53 * (q * 2 ^ E.toNat) := by
      have h1 : (p : ℚ) / q / (2 : ℚ) ^ E < (2 : ℚ) ^ (53 : ℤ) := by
        rw [div_lt_iff₀ (by positivity), ← zpow_add₀ (by norm_num : (2 : ℚ) ≠ 0)]
        apply lt_of_lt_of_le ib
        apply zpow_le_zpow_right₀ (by norm_num)
        omega
      rw [← hquot, div_lt_iff₀ hdenq] at h1
      have h2 : ((2 : ℚ) ^ (53 : ℤ)) = ((2 ^ 53 : ℕ) : ℚ) := by norm_num
      rw [h2] at h1
      exact_mod_cast h1
    have hlower : E = ilog2 p q - 52 → 2 ^ 52 * (q * 2 ^ E.toNat) ≤ p * 2 ^ (-E).toNat := by
      intro hEq
      have h1 : (2 : ℚ) ^ (52 : ℤ) ≤ (p : ℚ) / q / (2 : ℚ) ^ E := by
        rw [le_div_iff₀ (by positivity), ← zpow_add₀ (by norm_num : (2 : ℚ) ≠ 0)]
        apply le_trans _ ia
        apply zpow_le_zpow_right₀ (by norm_num)
        omega
      rw [← hquot, le_div_iff₀ hdenq] at h1
      have h2 : ((2 : ℚ) ^ (52 : ℤ)) = ((2 ^ 52 : ℕ) : ℚ) := by norm_num
      rw [h2] at h1
      exact_mod_cast h1
    have hm0 : p * 2 ^ (-E).toNat / (q * 2 ^ E.toNat) < 2 ^ 53 :=
      (Nat.div_lt_iff_lt_mul hden).mpr hupper
    have hm0' : E = ilog2 p q - 52 → 2 ^ 52 ≤ p * 2 ^ (-E).toNat / (q * 2 ^ E.toNat) :=
      fun h => (Nat.le_div_iff_mul_le hden).mpr (hlower h)
    generalize p * 2 ^ (-E).toNat / (q * 2 ^ E.toNat) = m0 at hm0 hm0'
    generalize p * 2 ^ (-E).toNat % (q * 2 ^ E.toNat) = r
    generalize hM : (if q * 2 ^ E.toNat < 2 * r ∨ 2 * r = q * 2 ^ E.toNat ∧ m0 % 2 = 1
      then m0 + 1 else m0) = M
    have hM1 : m0 ≤ M ∧ M ≤ m0 + 1 := by
      rw [← hM]; split <;> omega
    by_cases h53 : M = 2 ^ 53
    · simp only [h53, if_true]
      split
      · trivial
      · rename_i hle
        simp only [F64.wf]
        refine ⟨by norm_num, by omega, by omega, Or.inl (le_refl _)⟩
    · simp only [h53, if_false]
      split
      · trivial
      · rename_i hle
        simp only [F64.wf]
        refine ⟨by omega, hE1, by omega, ?_⟩
        rcases hE3 with h | h
        · left; have := hm0' h; omega
        · right; exact h

theorem div_mod_rat (num den : Nat) :
    ((num % den : ℕ) : ℚ) = (num : ℚ) - (den : ℚ) * ((num / den : ℕ) : ℚ) := by
  have h := Nat.div_add_mod num den
  have h2 : ((den * (num / den) + num % den : ℕ) : ℚ) = (num : ℚ) := by rw [h]
  push_cast at h2
  linarith

/-- The mantissa `roundRat` picks depends only on the quotient `num / den`. -/
theorem roundStep_congr (num den num' den' : Nat) (hden : 0 < den) (hden' : 0 < den')
    (h : (num : ℚ) / den = (num' : ℚ) / den') :
    num / den = num' / den' ∧
    ((den < 2 * (num % den)) ↔ (den' < 2 * (num' % den'))) ∧
    ((2 * (num % den) = den) ↔ (2 * (num' % den') = den')) := by
  have hd : (0 : ℚ) < den := by exact_mod_cast hden
  have hd' : (0 : ℚ) < den' := by exact_mod_cast hden'
  have hq : num / den = num' / den' := by
    rw [← Nat.floor_div_eq_div (α := ℚ) num den, ← Nat.floor_div_eq_div (α := ℚ) num' den', h]
  have hr := div_mod_rat num den
  have hr' := div_mod_rat num' den'
  rw [← hq] at hr'
  set m0 : ℚ := ((num / den : ℕ) : ℚ) with hm0
  -- fractional parts agree
  have hfrac : ((num % den : ℕ) : ℚ) / den = ((num' % den' : ℕ) : ℚ) / den' := by
    rw [hr, hr', sub_div, sub_div, h]
    congr 1
    field_simp
  have key1 : ∀ (r d : ℕ), 0 < d → ((d < 2 * r) ↔ (1 / 2 : ℚ) < (r : ℚ) / d) := by
    intro r d hd0
    have hdq : (0 : ℚ) < d := by exact_mod_cast hd0
    rw [lt_div_iff₀ hdq]
    constructor
    · intro hlt
      have : ((d : ℕ) : ℚ) < ((2 * r : ℕ) : ℚ) := by exact_mod_cast hlt
      push_cast at this
      linarith
    · intro hlt
      have : ((d : ℕ) : ℚ) < ((2 * r : ℕ) : ℚ) := by push_cast; linarith
      exact_mod_cast this
  have key2 : ∀ (r d : ℕ), 0 < d → ((2 * r = d) ↔ (r : ℚ) / d = 1 / 2) := by
    intro r d hd0
    have hdq : (0 : ℚ) < d := by exact_mod_cast hd0
    rw [div_eq_iff (ne_of_gt hdq)]
    constructor
    · intro heq
      have : ((2 * r : ℕ) : ℚ) = ((d : ℕ) : ℚ) := by rw [heq]
      push_cast at this
      linarith
    · intro heq
      have : ((2 * r : ℕ) : ℚ) = ((d : ℕ) : ℚ) := by push_cast; linarith
      exact_mod_cast this
  refine ⟨hq, ?_, ?_⟩
  · rw [key1 _ _ hden, key1 _ _ hden', hfrac]
  · rw [key2 _ _ hden, key2 _ _ hden', hfrac]

/-- The value `roundRat` computes depends only on the rational `p / q`. -/
theorem roundRat_congr (neg : Bool) (p q p' q' : Nat) (hq : 0 < q) (hq' : 0 < q')
    (h : (p : ℚ) / q = (p' : ℚ) / q') : roundRat neg p q = roundRat neg p' q' := by
  have hq0 : (0 : ℚ) < q := by exact_mod_cast hq
  have hq0' : (0 : ℚ) < q' := by exact_mod_cast hq'
  by_cases hp : p = 0
  · have hp' : p' = 0 := by
      subst hp
      have h0 : (p' : ℚ) / q' = 0 := by rw [← h]; simp
      rcases div_eq_zero_iff.mp h0 with h1 | h1
      · exact_mod_cast h1
      · exact absurd h1 (ne_of_gt hq0')
    subst hp hp'
    simp [roundRat]
  · have hp' : p' ≠ 0 := by
      intro h0
      subst h0
      have h1 : (p : ℚ) / q = 0 := by rw [h]; simp
      rcases div_eq_zero_iff.mp h1 with h2 | h2
      · exact hp (by exact_mod_cast h2)
      · exact absurd h2 (ne_of_gt hq0)
    have hpp : 0 < p := Nat.pos_of_ne_zero hp
    have hpp' : 0 < p' := Nat.pos_of_ne_zero hp'
    have hil : ilog2 p q = ilog2 p' q' := by
      obtain ⟨a, b⟩ := ilog2_spec p q hpp hq
      obtain ⟨a', b'⟩ := ilog2_spec p' q' hpp' hq'
      rw [← h] at a' b'
      exact zlog_unique _ _ _ a b a' b'
    unfold roundRat
    rw [if_neg hp, if_neg hp']
    simp only [hil]
    generalize max (ilog2 p' q' - 52) (-1074) = E
    have hden : 0 < q * 2 ^ E.toNat := by positivity
    have hden' : 0 < q' * 2 ^ E.toNat := by positivity
    have hquot : ((p * 2 ^ (-E).toNat : ℕ) : ℚ) / ((q * 2 ^ E.toNat : ℕ) : ℚ) =
        ((p' * 2 ^ (-E).toNat : ℕ) : ℚ) / ((q' * 2 ^ E.toNat : ℕ) : ℚ) := by
      push_cast
      rw [mul_div_mul_comm, mul_div_mul_comm, h]
    obtain ⟨h1, h2, h3⟩ := roundStep_congr _ _ _ _ hden hden' hquot
    rw [h1]
    simp only [h2, h3]

/-! ## C3: rounding -/

/-- The integer `math.Round` computes for `m * 2^e` is `⌊m * 2^e + 1/2⌋`. -/
theorem roundInt_eq_floor (m : Nat) (e : Int) :
    (2 * (m * 2 ^ e.toNat) + 2 ^ (-e).toNat) / (2 * 2 ^ (-e).toNat) =
      ⌊(m : ℚ) * (2 : ℚ) ^ e + 1 / 2⌋₊ := by
  have key : (m : ℚ) * (2 : ℚ) ^ e + 1 / 2 =
      ((2 * (m * 2 ^ e.toNat) + 2 ^ (-e).toNat : ℕ) : ℚ) / ((2 * 2 ^ (-e).toNat : ℕ) : ℚ) := by
    rcases le_total 0 e with he | he
    · obtain ⟨k, rfl⟩ := Int.eq_ofNat_of_zero_le he
      have h1 : (-(k : ℤ)).toNat = 0 := by omega
      simp only [Int.toNat_ofNat, h1, zpow_natCast]
      push_cast
      ring
    · obtain ⟨k, hk⟩ := Int.eq_ofNat_of_zero_le (neg_nonneg.mpr he)
      have he' : e = -(k : ℤ) := by omega
      subst he'
      have h1 : (-(k : ℤ)).toNat = 0 := by omega
      simp only [neg_neg, Int.toNat_ofNat, h1, zpow_neg, zpow_natCast]
      push_cast
      have h2 : (2 : ℚ) ^ k ≠ 0 := by positivity
      field_simp
      ring
  rw [key, Nat.floor_div_eq_div]

theorem toRat_abs (s : Bool) (m : Nat) (e : Int) :
    |(F64.fin s m e).toRat| = (m : ℚ) * (2 : ℚ) ^ e := by
  have h : (0 : ℚ) ≤ (m : ℚ) * (2 : ℚ) ^ e := by positivity
  cases s
  · simp only [F64.toRat, Bool.false_eq_true, if_false, one_mul]
    exact abs_of_nonneg h
  · simp only [F64.toRat, if_true, neg_mul, one_mul, abs_neg]
    exact abs_of_nonneg h

/-- Every natural number below `2^53` is a well-formed binary64 value. -/
theorem nat_representable (s : Bool) (N : Nat) (h : N < 2 ^ 53) :
    ∃ a b, (F64.fin s a b).wf ∧ (a : ℚ) * (2 : ℚ) ^ b = N := by
  rcases Nat.eq_zero_or_pos N with h0 | h0
  · subst h0
    exact ⟨0, -1074, ⟨by norm_num, by norm_num, by norm_num, Or.inr rfl⟩, by simp⟩
  · obtain ⟨la, lb⟩ := log2_spec N h0
    have hL : log2 N ≤ 52 := by
      by_contra hcon
      have : 2 ^ 53 ≤ 2 ^ log2 N := Nat.pow_le_pow_right (by norm_num) (by omega)
      omega
    obtain ⟨k, hk⟩ : ∃ k, log2 N + k = 52 := ⟨52 - log2 N, by omega⟩
    refine ⟨N * 2 ^ k, -(k : ℤ), ⟨?_, by omega, by omega, Or.inl ?_⟩, ?_⟩
    · have : N * 2 ^ k < 2 ^ (log2 N + 1) * 2 ^ k :=
        Nat.mul_lt_mul_of_pos_right lb (by positivity)
      rw [← pow_add, show log2 N + 1 + k = 53 by omega] at this
      exact this
    · have : 2 ^ log2 N * 2 ^ k ≤ N * 2 ^ k := Nat.mul_le_mul_right _ la
      rw [← pow_add, hk] at this
      exact this
    · push_cast
      rw [zpow_neg, zpow_natCast]
      have h2 : (2 : ℚ) ^ k ≠ 0 := by positivity
      field_simp

/-- The integer `math.Round` forms from a well-formed binary64 value is a binary64 value. -/
theorem roundInt_representable (s : Bool) (pm : Nat) (pe : Int) (hwf : (F64.fin s pm pe).wf) :
    ∃ a b, (F64.fin s a b).wf ∧
      (a : ℚ) * (2 : ℚ) ^ b = (⌊(pm : ℚ) * (2 : ℚ) ^ pe + 1 / 2⌋₊ : ℕ) := by
  rcases le_or_lt 0 pe with he | he
  · refine ⟨pm, pe, hwf, ?_⟩
    obtain ⟨k, rfl⟩ := Int.eq_ofNat_of_zero_le he
    have hfl : ⌊(pm : ℚ) * (2 : ℚ) ^ ((k : ℕ) : ℤ) + 1 / 2⌋₊ = pm * 2 ^ k := by
      rw [Nat.floor_eq_iff (by positivity)]
      rw [zpow_natCast]
      push_cast
      constructor <;> linarith
    rw [hfl]
    push_cast
    rw [zpow_natCast]
  · apply nat_representable
    obtain ⟨hm, _, _, _⟩ := hwf
    have hm' : (pm : ℚ) < 2 ^ 53 := by exact_mod_cast hm
    have h2 : (2 : ℚ) ^ pe ≤ 1 / 2 := by
      have : (2 : ℚ) ^ pe ≤ (2 : ℚ) ^ (-1 : ℤ) :=
        zpow_le_zpow_right₀ (by norm_num) (by omega)
      simpa using this
    have h3 : (0 : ℚ) < (2 : ℚ) ^ pe := by positivity
    have h4 : (pm : ℚ) * (2 : ℚ) ^ pe + 1 / 2 < 2 ^ 53 := by
      have : (pm : ℚ) * (2 : ℚ) ^ pe ≤ (pm : ℚ) * (1 / 2) :=
        mul_le_mul_of_nonneg_left h2 (by positivity)
      have h5 : (pm : ℚ) * (1 / 2) < 2 ^ 53 * (1 / 2) := by linarith
      norm_num at h5 ⊢
      linarith
    rw [Nat.floor_lt (by positivity)]
    exact_mod_cast h4

theorem pow10Exact_le_22 : ∀ d : Nat, d ≤ 22 → pow10Exact d = true := by
  decide

/-- For `d ≤ 22`, `math.Pow(10, d)` is the float64 value of `10^d`. -/
theorem mathPow10_eq_lit : ∀ d : Nat, d ≤ 22 → mathPow10 d = lit (10 ^ d) 1 := by
  decide

theorem mathPow10_fin (d : Nat) (hd : d ≤ 22) :
    ∃ n f, mathPow10 d = F64.fin false n f ∧ (n : ℚ) * (2 : ℚ) ^ f = 10 ^ d := by
  have h := pow10Exact_le_22 d hd
  unfold pow10Exact at h
  split at h
  · rename_i n f heq
    refine ⟨n, f, heq, ?_⟩
    have hn : n * 2 ^ f.toNat = 10 ^ d * 2 ^ (-f).toNat := of_decide_eq_true h
    have hq : ((n * 2 ^ f.toNat : ℕ) : ℚ) = ((10 ^ d * 2 ^ (-f).toNat : ℕ) : ℚ) := by rw [hn]
    push_cast at hq
    rw [zpow_split 2 f]
    have h2 : (2 : ℚ) ^ (-f).toNat ≠ 0 := by positivity
    field_simp
    linarith
  · simp at h

/-- The float64 product of a finite value and `10^d`, for `d ≤ 22`, is the float64 value
nearest to the exact product. -/
theorem fmul_pow10 (s : Bool) (m : Nat) (e : Int) (d : Nat) (hd : d ≤ 22) :
    fmul (F64.fin s m e) (mathPow10 d) =
      roundRat s (m * 10 ^ d * 2 ^ e.toNat) (2 ^ (-e).toNat) := by
  obtain ⟨n, f, hpow, hval⟩ := mathPow10_fin d hd
  rw [hpow]
  simp only [fmul, Bool.xor_false]
  apply roundRat_congr _ _ _ _ _ (by positivity) (by positivity)
  push_cast
  rw [mul_div_assoc, ← zpow_split 2 (e + f), mul_div_assoc, ← zpow_split 2 e,
    zpow_add₀ (by norm_num : (2 : ℚ) ≠ 0), ← hval]
  ring

/-- The float64 quotient of a float64 integer by `10^d`, for `d ≤ 22`, is the float64 value
nearest to the exact quotient. -/
theorem fdiv_pow10 (s : Bool) (a : Nat) (b : Int) (N d : Nat) (hd : d ≤ 22)
    (hN : (a : ℚ) * (2 : ℚ) ^ b = N) :
    fdiv (F64.fin s a b) (mathPow10 d) = roundRat s N (10 ^ d) := by
  obtain ⟨n, f, hpow, hval⟩ := mathPow10_fin d hd
  rw [hpow]
  have hn : n ≠ 0 := by
    intro h0
    subst h0
    have : (0 : ℚ) = 10 ^ d := by simpa using hval
    have h10 : (0 : ℚ) < 10 ^ d := by positivity
    linarith
  have hnpos : 0 < n := Nat.pos_of_ne_zero hn
  simp only [fdiv, Bool.xor_false, if_neg hn]
  apply roundRat_congr _ _ _ _ _ (by positivity) (by positivity)
  push_cast
  have h1 : (2 : ℚ) ^ (b - f).toNat / (2 : ℚ) ^ (f - b).toNat = (2 : ℚ) ^ b / (2 : ℚ) ^ f := by
    rw [← zpow_sub₀ (by norm_num : (2 : ℚ) ≠ 0) b f, zpow_split 2 (b - f),
      show (-(b - f)).toNat = (f - b).toNat by congr 1; ring]
  rw [← hN, ← hval, mul_div_mul_comm, h1, mul_div_mul_comm]

/-- The value `roundRat` returns is finite or the infinity, of the given sign. -/
theorem roundRat_cases (neg : Bool) (p q : Nat) :
    (∃ m e, roundRat neg p q = F64.fin neg m e) ∨ roundRat neg p q = F64.inf neg := by
  unfold roundRat
  by_cases hp : p = 0
  · rw [if_pos hp]; exact Or.inl ⟨_, _, rfl⟩
  · rw [if_neg hp]
    simp only []
    split_ifs <;> first | exact Or.inr rfl | exact Or.inl ⟨_, _, rfl⟩

theorem Ldexp_wf (x : F64) (k : Int) : (Ldexp x k).wf := by
  cases x with
  | nan => trivial
  | inf s => trivial
  | fin s m e => exact roundRat_wf _ _ _ (by positivity)

/-- The value `math.Pow(10, d)` is a well-formed binary64 value, or infinite. -/
theorem mathPow10_wf (d : Int) : (mathPow10 d).wf := by
  unfold mathPow10
  simp only []
  split
  · exact roundRat_wf _ _ _ (by norm_num)
  · split
    · exact roundRat_wf _ _ _ (by norm_num)
    · split
      · split
        · simp [F64.wf]
        · trivial
      · split
        · exact Ldexp_wf _ _
        · exact Ldexp_wf _ _

/-- A binary64 value is not `10^d` for `d ≥ 23`: its mantissa would be a multiple of
`5^23`, which is above `2^53`. -/
theorem not_pow10_of_large (s : Bool) (m : Nat) (e : Int) (d : Nat) (hd : 23 ≤ d)
    (hm : m < 2 ^ 53) : (F64.fin s m e).toRat ≠ 10 ^ d := by
  intro h
  have h10 : (0 : ℚ) < 10 ^ d := by positivity
  have h2e : (0 : ℚ) < (2 : ℚ) ^ e := by positivity
  have hs : s = false := by
    cases s
    · rfl
    · exfalso
      simp only [F64.toRat, if_true] at h
      have : (0 : ℚ) ≤ (m : ℚ) * (2 : ℚ) ^ e := by positivity
      linarith
  subst hs
  simp only [F64.toRat, Bool.false_eq_true, if_false, one_mul] at h
  rw [zpow_split 2 e, mul_div_assoc', div_eq_iff (by positivity)] at h
  have hnat : m * 2 ^ e.toNat = 10 ^ d * 2 ^ (-e).toNat := by exact_mod_cast h
  have hdvd : 5 ^ d ∣ m * 2 ^ e.toNat := by
    rw [hnat, show (10 : ℕ) = 5 * 2 by norm_num, mul_pow, mul_assoc]
    exact Dvd.intro _ rfl
  have hcop : Nat.Coprime (5 ^ d) (2 ^ e.toNat) :=
    Nat.Coprime.pow _ _ (by norm_num)
  have hdm : 5 ^ d ∣ m := hcop.dvd_of_dvd_mul_right hdvd
  have hmpos : 0 < m := by
    rcases Nat.eq_zero_or_pos m with h0 | h0
    · subst h0
      simp at hnat
    · exact h0
  have hle : 5 ^ d ≤ m := Nat.le_of_dvd hmpos hdm
  have h23 : 5 ^ 23 ≤ 5 ^ d := Nat.pow_le_pow_right (by norm_num) hd
  have : (2 : ℕ) ^ 53 < 5 ^ 23 := by norm_num
  omega

/-- A binary64 value is not `10^(-k)` for `k ≥ 1`: no power of two is a multiple of 5. -/
theorem not_pow10_of_neg (s : Bool) (m : Nat) (e : Int) (k : Nat) (hk : 1 ≤ k) :
    (F64.fin s m e).toRat ≠ 1 / 10 ^ k := by
  intro h
  have h10 : (0 : ℚ) < 10 ^ k := by positivity
  have hs : s = false := by
    cases s
    · rfl
    · exfalso
      simp only [F64.toRat, if_true] at h
      have : (0 : ℚ) ≤ (m : ℚ) * (2 : ℚ) ^ e := by positivity
      have : (0 : ℚ) < 1 / 10 ^ k := by positivity
      linarith
  subst hs
  simp only [F64.toRat, Bool.false_eq_true, if_false, one_mul] at h
  rw [zpow_split 2 e, mul_div_assoc', div_eq_div_iff (by positivity) (by positivity)] at h
  have hnat : m * 2 ^ e.toNat * 10 ^ k = 1 * 2 ^ (-e).toNat := by exact_mod_cast h
  have hdvd : 5 ∣ 2 ^ (-e).toNat := by
    rw [← one_mul (2 ^ (-e).toNat), ← hnat]
    obtain ⟨j, rfl⟩ : ∃ j, k = j + 1 := ⟨k - 1, by omega⟩
    rw [pow_succ]
    exact ⟨m * 2 ^ e.toNat * 10 ^ j * 2, by ring⟩
  have h5 : Nat.Prime 5 := by norm_num
  have := h5.dvd_of_dvd_pow hdvd
  omega

/-- For `d` outside `0 .. 22` the value `math.Pow(10, d)` is not `10^d`. -/
theorem mathPow10_inexact (d : Int) (hd : d < 0 ∨ 23 ≤ d) :
    (mathPow10 d).toRat ≠ (10 : ℚ) ^ d := by
  have hwf := mathPow10_wf d
  have hne : (10 : ℚ) ^ d ≠ 0 := by positivity
  cases hv : mathPow10 d with
  | nan => simpa [F64.toRat] using hne.symm
  | inf s => simpa [F64.toRat] using hne.symm
  | fin s m e =>
    rw [hv] at hwf
    rcases hd with hd | hd
    · obtain ⟨k, hk⟩ := Int.eq_ofNat_of_zero_le (show 0 ≤ -d by omega)
      have hd' : d = -(k : ℤ) := by omega
      rw [hd', zpow_neg, zpow_natCast, ← one_div]
      exact not_pow10_of_neg s m e k (by omega)
    · obtain ⟨k, hk⟩ := Int.eq_ofNat_of_zero_le (show 0 ≤ d by omega)
      rw [hk, zpow_natCast]
      exact not_pow10_of_large s m e k (by omega) hwf.1

/-- The loop of `math.Pow` ends within as many passes as the exponent has binary digits:
a larger bound on the passes gives the same result. In `mathPow10` the exponent is below
`2^63` and the bound is 64. -/
theorem powLoop_fuel : ∀ (fuel i : Nat) (x1 : F64) (xe : Int) (a1 : F64) (ae : Int),
    i < 2 ^ fuel → ∀ k, powLoop (fuel + k) i x1 xe a1 ae = powLoop fuel i x1 xe a1 ae := by
  intro fuel
  induction fuel with
  | zero =>
    intro i x1 xe a1 ae hi k
    have h0 : i = 0 := by simpa using hi
    subst h0
    cases k with
    | zero => rfl
    | succ n => simp [powLoop]
  | succ n ih =>
    intro i x1 xe a1 ae hi k
    have hk : n + 1 + k = (n + k) + 1 := by omega
    have hhalf : i / 2 < 2 ^ n := by
      rw [pow_succ] at hi
      omega
    rw [hk]
    simp only [powLoop]
    split_ifs <;> first | rfl | exact ih _ _ _ _ _ hhalf k

/-- The repeated squaring of `math.Pow` does not always give the float64 value nearest to
the power: `math.Pow(10, 33)` and `math.Pow(10, -23)` lie one unit in the last place above
the nearest values, while `math.Pow(10, 23)` is the nearest value. With these powers
`round(1.7, 33)` is 1.6999999999999997 and `round(0.05, 33)` is 0.05000000000000001. -/
theorem mathPow10_not_nearest :
    mathPow10 33 = F64.fin false 6938893903907229 57 ∧
    lit (10 ^ 33) 1 = F64.fin false 6938893903907228 57 ∧
    mathPow10 (-23) = F64.fin false 6805647338418770 (-129) ∧
    lit 1 (10 ^ 23) = F64.fin false 6805647338418769 (-129) ∧
    mathPow10 23 = lit (10 ^ 23) 1 ∧
    round (lit 17 10) 33 = lit 16999999999999997 10000000000000000 ∧
    round (lit 5 100) 33 = lit 5000000000000001 100000000000000000 := by
  decide

/-- Counterexample to C3. The value -0.5 lies halfway between -1 and 0 and `round(-0.5, 0)`
is the lower one, -1. The float64 value of 2.675 lies strictly below the halfway point
2.675 of 2.67 and 2.68, and `round` takes it to 2.68, not to 2.67. The product of `1e308`
and 10 overflows, and `round(1e308, 1)` is `+Inf`. The value `10^d` is a float64 value only
for `0 ≤ d ≤ 22`, elsewhere `math.Pow(10, d)` is another value: `round(1.7, 23)` is not
the float64 value of 1.7 but the next one up, and `round` at -1 decimal places takes the
float64 value next below 15, which is nearer to 10 than to 20, to 20. -/
theorem round_not_always_half_up :
    (roundRat true 1 2).toRat = -1 / 2 ∧
    round (roundRat true 1 2) 0 = roundRat true 1 1 ∧
    (roundRat true 1 1).toRat = -1 ∧
    (lit 2675 1000).toRat < 2675 / 1000 ∧ (267 : ℚ) / 100 < (lit 2675 1000).toRat ∧
    round (lit 2675 1000) 2 = lit 268 100 ∧ lit 268 100 ≠ lit 267 100 ∧
    round (lit (10 ^ 308) 1) 1 = F64.inf false ∧
    (∀ d : Int, d < 0 ∨ 23 ≤ d → (mathPow10 d).toRat ≠ (10 : ℚ) ^ d) ∧
    round (lit 17 10) 23 = F64.fin false 7656119366529844 (-52) ∧
    lit 17 10 = F64.fin false 7656119366529843 (-52) ∧
    (F64.fin false 8444249301319679 (-49)).toRat < 15 ∧
    round (F64.fin false 8444249301319679 (-49)) (-1) = lit 20 1 ∧ lit 20 1 ≠ lit 10 1 := by
  have h1 : roundRat true 1 2 = F64.fin true 4503599627370496 (-53) := by decide
  have h2 : roundRat true 1 1 = F64.fin true 4503599627370496 (-52) := by decide
  have h3 : lit 2675 1000 = F64.fin false 6023564501608038 (-51) := by decide
  refine ⟨?_, by decide, ?_, ?_, ?_, by decide, by decide, by decide, mathPow10_inexact,
    by decide, by decide, ?_, by decide, by decide⟩
  · rw [h1]; simp only [F64.toRat]; norm_num
  · rw [h2]; simp only [F64.toRat]; norm_num
  · rw [h3]; simp only [F64.toRat]; norm_num
  · rw [h3]; simp only [F64.toRat]; norm_num
  · simp only [F64.toRat]; norm_num

/-- C3, amended. For `0 ≤ d ≤ 22` decimal places `math.Pow(10, d)` is exactly `10^d`, and
for a finite value `x = (-1)^s * m * 2^e` the product `x * pow` that `round` forms is the
float64 value `p` nearest to `x * 10^d`. When `p` is finite, `round(x, d)` is the float64
value nearest to `r / 10^d`, where `r` is `p` rounded to an integer, halves away from
zero: `⌊|p| + 1/2⌋` with the sign of `p`. So for a non-negative `x` whose product with
`10^d` is exact, `round(x, d)` is the float64 value of `⌊x * 10^d + 1/2⌋ / 10^d`, which is
`x` rounded half-up to `d` decimal places. When the product overflows, `round(x, d)` is
the infinity of the sign of `x`; NaN and the infinities are returned unchanged. In
particular `round(2.345, 2) = 2.35` and `round(0.0, 0) = 0.0`. -/
theorem round_half_up_on_product (s : Bool) (m : Nat) (e : Int) (d : Nat) (hd : d ≤ 22) :
    mathPow10 d = lit (10 ^ d) 1 ∧ (mathPow10 d).toRat = 10 ^ d ∧
    fmul (F64.fin s m e) (mathPow10 d) =
      roundRat s (m * 10 ^ d * 2 ^ e.toNat) (2 ^ (-e).toNat) ∧
    ((∃ pm pe, fmul (F64.fin s m e) (mathPow10 d) = F64.fin s pm pe) ∨
      fmul (F64.fin s m e) (mathPow10 d) = F64.inf s) ∧
    (∀ pm pe, fmul (F64.fin s m e) (mathPow10 d) = F64.fin s pm pe →
      round (F64.fin s m e) d =
        roundRat s ⌊|(F64.fin s pm pe).toRat| + 1 / 2⌋₊ (10 ^ d) ∧
      (s = false → (F64.fin s pm pe).toRat = (F64.fin s m e).toRat * 10 ^ d →
        round (F64.fin s m e) d = lit (halfUpScaled (F64.fin s m e).toRat d) (10 ^ d))) ∧
    (fmul (F64.fin s m e) (mathPow10 d) = F64.inf s → round (F64.fin s m e) d = F64.inf s) ∧
    round F64.nan d = F64.nan ∧ (∀ t, round (F64.inf t) d = F64.inf t) ∧
    round (lit 2345 1000) 2 = lit 235 100 ∧ round (lit 0 1) 0 = lit 0 1 := by
  obtain ⟨n, f, hpow, hv⟩ := mathPow10_fin d hd
  have hn : n ≠ 0 := by
    intro h0
    subst h0
    have : (0 : ℚ) = 10 ^ d := by simpa using hv
    have h10 : (0 : ℚ) < 10 ^ d := by positivity
    linarith
  have hmul := fmul_pow10 s m e d hd
  have hval : (mathPow10 d).toRat = 10 ^ d := by
    rw [hpow]
    simpa [F64.toRat] using hv
  have hcases : (∃ pm pe, fmul (F64.fin s m e) (mathPow10 d) = F64.fin s pm pe) ∨
      fmul (F64.fin s m e) (mathPow10 d) = F64.inf s := by
    rw [hmul]
    exact roundRat_cases _ _ _
  have hfin : ∀ pm pe, fmul (F64.fin s m e) (mathPow10 d) = F64.fin s pm pe →
      round (F64.fin s m e) d =
        roundRat s ⌊|(F64.fin s pm pe).toRat| + 1 / 2⌋₊ (10 ^ d) := by
    intro pm pe hp
    have hwf : (F64.fin s pm pe).wf := by
      rw [← hp, hmul]; exact roundRat_wf _ _ _ (by positivity)
    obtain ⟨a, b, hab, hN⟩ := roundInt_representable s pm pe hwf
    unfold round
    simp only [hp, mathRound]
    rw [roundInt_eq_floor, toRat_abs,
      roundRat_exact s _ 1 a b (by norm_num) hab (by rw [hN]; simp),
      fdiv_pow10 s a b _ d hd hN]
  refine ⟨mathPow10_eq_lit d hd, hval, hmul, hcases, ?_, ?_, ?_, ?_, by decide, by decide⟩
  · intro pm pe hp
    refine ⟨hfin pm pe hp, ?_⟩
    intro hs hex
    subst hs
    rw [hfin pm pe hp]
    unfold halfUpScaled lit
    rw [← hex, abs_of_nonneg]
    simp only [F64.toRat, Bool.false_eq_true, if_false, one_mul]
    positivity
  · intro hinf
    rw [hpow] at hinf
    unfold round
    simp only [hpow, hinf, mathRound, fdiv, Bool.xor_false]
  · unfold round
    simp only [hpow, fmul, mathRound, fdiv]
  · intro t
    unfold round
    simp only [hpow, fmul, if_neg hn, mathRound, fdiv, Bool.xor_false]

/-- Witness of C3 as amended: `round(1.25, 1)`, where the product 12.5 is exact, is the
float64 value of `13 / 10`. -/
theorem round_half_up_on_product_witness :
    lit 125 100 = F64.fin false 5629499534213120 (-52) ∧
    fmul (F64.fin false 5629499534213120 (-52)) (mathPow10 (1 : Nat)) =
      roundRat false (5629499534213120 * 10 ^ 1 * 2 ^ (-52 : Int).toNat)
        (2 ^ (-(-52 : Int)).toNat) ∧
    round (F64.fin false 5629499534213120 (-52)) (1 : Nat) =
      roundRat false ⌊|(F64.fin false 7036874417766400 (-49)).toRat| + 1 / 2⌋₊ (10 ^ 1) ∧
    round (lit 125 100) 1 = lit 13 10 :=
  ⟨by decide,
   (round_half_up_on_product false 5629499534213120 (-52) 1 (by decide)).2.2.1,
   ((round_half_up_on_product false 5629499534213120 (-52) 1 (by decide)).2.2.2.2.1
     7036874417766400 (-49) (by decide)).1,
   by decide⟩

/-! ## C2: the payload -/

/-! ### Decimal digits -/

/-- The threshold of the `%e` form is the float64 value of `1e-6`. -/
theorem tiny_threshold : lit 1 (10 ^ 6) = F64.fin false 4722366482869645 (-72) := by
  decide

/-- The number format of `json.Marshal` on known values: the shortest decimal that reads
back, in plain form from `1e-6` up to `1e21` and in exponent form outside. -/
theorem formatFloat_examples :
    formatFloat (lit 1 10) = some "0.1".toList ∧
    formatFloat (lit 4249 100) = some "42.49".toList ∧
    formatFloat (lit 100 1) = some "100".toList ∧
    formatFloat (roundRat true 5 2) = some "-2.5".toList ∧
    formatFloat (lit 1 3) = some "0.3333333333333333".toList ∧
    formatFloat (lit 1 1000000) = some "0.000001".toList ∧
    formatFloat (lit 1 10000000) = some "1e-7".toList ∧
    formatFloat (lit (10 ^ 20) 1) = some "100000000000000000000".toList ∧
    formatFloat (lit (10 ^ 21) 1) = some "1e+21".toList ∧
    formatFloat (lit 17000000000000002 10000000000000000) = some "1.7000000000000002".toList := by
  decide

/-! ### Reading back an escaped string -/

theorem fmul_wf (x y : F64) : (fmul x y).wf := by
  cases x <;> cases y <;> simp only [fmul] <;> try trivial
  · split <;> trivial
  · split <;> trivial
  · exact roundRat_wf _ _ _ (by positivity)

end Heardbeat
